import Mathlib

/-!
Verification of the Redis read-through caching layer of the catalogue
service: key derivation, serialization round trips, the cached read
coordinator (CachedService), the cache warmer and the metrics recorder,
modelled from the Go sources (cached_service.go, cache_warmer.go,
cmd/cataloguesvc/main.go and the metrics file).
-/

namespace CatalogueRedis

/-- A Go `error` value; `nil` is modelled as `Option.none` at use sites. -/
structure GoErr where
  msg : String
  deriving DecidableEq, Repr

/-- Modelled from the spec: the catalogue item (`Sock`) record is declared in
the upstream catalogue package, which is not part of this repository's
sources.  The spec describes it as "an opaque record with at minimum an
identifier (string, unique), a display name, and a set of tags (strings)". -/
structure Sock where
  ID : String
  Name : String
  Tags : List String
  deriving DecidableEq, Repr

/-- The zero value of `Sock` (returned by the cache on miss/error paths). -/
def sockZero : Sock := ⟨"", "", []⟩

/-! ## JSON serialization (model of `encoding/json` as used by the cache)

The cache stores product lists, single products and tag lists as JSON
(`json.Marshal` on Set, `json.Unmarshal` on Get).  We model the encoder and
a recursive-descent decoder at the character level, faithful to Go's
escaping rules for strings. -/

/-- Lowercase hexadecimal digit character for a value below 16. -/
def hexDig (n : Nat) : Char :=
  if n < 10 then Char.ofNat (48 + n) else Char.ofNat (87 + n)

/-- Value of a hexadecimal digit character (either case), if it is one. -/
def hexVal (c : Char) : Option Nat :=
  if 48 ≤ c.toNat ∧ c.toNat ≤ 57 then some (c.toNat - 48)
  else if 97 ≤ c.toNat ∧ c.toNat ≤ 102 then some (c.toNat - 87)
  else if 65 ≤ c.toNat ∧ c.toNat ≤ 70 then some (c.toNat - 55)
  else none

/-- Go's JSON string escaping of one character (default encoder with HTML
escaping): quote, backslash, newline/return/tab get two-character escapes,
other control characters get a lowercase hex escape, and so do the
HTML-sensitive characters and the Unicode line/paragraph separators. -/
def encodeChar (c : Char) : List Char :=
  if c = '"' then ['\\', '"']
  else if c = '\\' then ['\\', '\\']
  else if c = '\n' then ['\\', 'n']
  else if c = '\r' then ['\\', 'r']
  else if c = '\t' then ['\\', 't']
  else if c.toNat < 32 then
    ['\\', 'u', '0', '0', hexDig (c.toNat / 16), hexDig (c.toNat % 16)]
  else if c = '<' then ['\\', 'u', '0', '0', '3', 'c']
  else if c = '>' then ['\\', 'u', '0', '0', '3', 'e']
  else if c = '&' then ['\\', 'u', '0', '0', '2', '6']
  else if c.toNat = 8232 then ['\\', 'u', '2', '0', '2', '8']
  else if c.toNat = 8233 then ['\\', 'u', '2', '0', '2', '9']
  else [c]

/-- JSON chars of a string literal: quote, escaped characters, quote. -/
def encodeString (s : String) : List Char :=
  '"' :: ((s.data.map encodeChar).flatten ++ ['"'])

/-- Single-character JSON escapes understood by the decoder. -/
def unescape (e : Char) : Option Char :=
  if e = '"' then some '"'
  else if e = '\\' then some '\\'
  else if e = '/' then some '/'
  else if e = 'n' then some '\n'
  else if e = 'r' then some '\r'
  else if e = 't' then some '\t'
  else if e = 'b' then some (Char.ofNat 8)
  else if e = 'f' then some (Char.ofNat 12)
  else none

/-- Decode the body of a JSON string (after the opening quote), accumulating
characters until the closing quote; returns the decoded characters and the
remaining input. -/
def parseStringBody : List Char → List Char → Option (List Char × List Char)
  | [], _ => none
  | c :: rest, acc =>
    if c = '"' then some (acc.reverse, rest)
    else if c = '\\' then
      match rest with
      | [] => none
      | e :: rest2 =>
        if e = 'u' then
          match rest2 with
          | h1 :: h2 :: h3 :: h4 :: rest3 =>
            match hexVal h1, hexVal h2, hexVal h3, hexVal h4 with
            | some a, some b, some c2, some d =>
              parseStringBody rest3
                (Char.ofNat (((a * 16 + b) * 16 + c2) * 16 + d) :: acc)
            | _, _, _, _ => none
          | _ => none
        else
          match unescape e with
          | some c2 => parseStringBody rest2 (c2 :: acc)
          | none => none
    else parseStringBody rest (c :: acc)

/-- Decode a JSON string literal, returning the string and remaining input. -/
def parseJString (l : List Char) : Option (String × List Char) :=
  match l with
  | [] => none
  | c :: rest =>
    if c = '"' then
      match parseStringBody rest [] with
      | some (cs, rest2) => some (String.mk cs, rest2)
      | none => none
    else none

theorem hexVal_hexDig : ∀ n, n < 16 → hexVal (hexDig n) = some n := by decide

/-- One decoding step inverts the encoding of one character: consuming the
escape sequence (or literal) for `c` pushes `c` onto the accumulator. -/
theorem parseStringBody_encodeChar (c : Char) (tail acc : List Char) :
    parseStringBody (encodeChar c ++ tail) acc = parseStringBody tail (c :: acc) := by
  have hofn : Char.ofNat c.toNat = c := Char.ofNat_toNat c
  by_cases h1 : c = '"'
  · subst h1; rw [show encodeChar '"' ++ tail = '\\' :: '"' :: tail from rfl,
      parseStringBody.eq_def]
    simp +decide [unescape]
  by_cases h2 : c = '\\'
  · subst h2; rw [show encodeChar '\\' ++ tail = '\\' :: '\\' :: tail from rfl,
      parseStringBody.eq_def]
    simp +decide [unescape]
  by_cases h3 : c = '\n'
  · subst h3; rw [show encodeChar '\n' ++ tail = '\\' :: 'n' :: tail from rfl,
      parseStringBody.eq_def]
    simp +decide [unescape]
  by_cases h4 : c = '\r'
  · subst h4; rw [show encodeChar '\r' ++ tail = '\\' :: 'r' :: tail from rfl,
      parseStringBody.eq_def]
    simp +decide [unescape]
  by_cases h5 : c = '\t'
  · subst h5; rw [show encodeChar '\t' ++ tail = '\\' :: 't' :: tail from rfl,
      parseStringBody.eq_def]
    simp +decide [unescape]
  by_cases h6 : c.toNat < 32
  · have hdiv : c.toNat / 16 < 16 := by omega
    have hmod : c.toNat % 16 < 16 := Nat.mod_lt _ (by omega)
    simp only [encodeChar, if_neg h1, if_neg h2, if_neg h3, if_neg h4, if_neg h5,
      if_pos h6, List.cons_append]
    rw [parseStringBody.eq_def]
    simp +decide [hexVal_hexDig _ hdiv, hexVal_hexDig _ hmod,
      show hexVal '0' = some 0 from by decide]
    have hv : c.toNat / 16 * 16 + c.toNat % 16 = c.toNat := by omega
    rw [hv, hofn]
  by_cases h7 : c = '<'
  · subst h7
    rw [show encodeChar '<' ++ tail = '\\' :: 'u' :: '0' :: '0' :: '3' :: 'c' :: tail
        from rfl, parseStringBody.eq_def]
    simp +decide [hexVal]
  by_cases h8 : c = '>'
  · subst h8
    rw [show encodeChar '>' ++ tail = '\\' :: 'u' :: '0' :: '0' :: '3' :: 'e' :: tail
        from rfl, parseStringBody.eq_def]
    simp +decide [hexVal]
  by_cases h9 : c = '&'
  · subst h9
    rw [show encodeChar '&' ++ tail = '\\' :: 'u' :: '0' :: '0' :: '2' :: '6' :: tail
        from rfl, parseStringBody.eq_def]
    simp +decide [hexVal]
  by_cases h10 : c.toNat = 8232
  · have hc : c = Char.ofNat 8232 := by rw [← h10, hofn]
    subst hc
    rw [show encodeChar (Char.ofNat 8232) ++ tail
        = '\\' :: 'u' :: '2' :: '0' :: '2' :: '8' :: tail from by
      simp +decide [encodeChar], parseStringBody.eq_def]
    simp +decide [hexVal]
  by_cases h11 : c.toNat = 8233
  · have hc : c = Char.ofNat 8233 := by rw [← h11, hofn]
    subst hc
    rw [show encodeChar (Char.ofNat 8233) ++ tail
        = '\\' :: 'u' :: '2' :: '0' :: '2' :: '9' :: tail from by
      simp +decide [encodeChar], parseStringBody.eq_def]
    simp +decide [hexVal]
  · simp only [encodeChar, if_neg h1, if_neg h2, if_neg h3, if_neg h4, if_neg h5,
      if_neg h6, if_neg h7, if_neg h8, if_neg h9, if_neg h10, if_neg h11,
      List.singleton_append]
    rw [parseStringBody.eq_def]
    simp [if_neg h1, if_neg h2]

/-- The string-body decoder inverts the character encoder over a whole
character list, up to the closing quote. -/
theorem parseStringBody_encode (cs : List Char) :
    ∀ (acc rest : List Char),
      parseStringBody ((cs.map encodeChar).flatten ++ ('"' :: rest)) acc =
        some (acc.reverse ++ cs, rest) := by
  induction cs with
  | nil =>
    intro acc rest
    rw [List.map_nil, List.flatten_nil, List.nil_append, parseStringBody.eq_def]
    simp
  | cons c cs ih =>
    intro acc rest
    rw [List.map_cons, List.flatten_cons, List.append_assoc,
      parseStringBody_encodeChar, ih]
    simp

/-- The string decoder inverts the string encoder, leaving the rest of the
input untouched. -/
theorem parseJString_encode (s : String) (rest : List Char) :
    parseJString (encodeString s ++ rest) = some (s, rest) := by
  show parseJString ('"' :: (((s.data.map encodeChar).flatten ++ ['"']) ++ rest))
      = some (s, rest)
  rw [List.append_assoc]
  simp only [parseJString, if_pos rfl, List.singleton_append]
  rw [parseStringBody_encode]
  simp

/-- A successful string-body parse consumes at least the closing quote. -/
theorem parseStringBody_consumes :
    ∀ (l acc cs rest : List Char), parseStringBody l acc = some (cs, rest) →
      rest.length < l.length := by
  intro l acc
  induction l, acc using parseStringBody.induct with
  | case1 acc => intro cs rest h; simp [parseStringBody] at h
  | _ =>
    intro cs rest h
    rw [parseStringBody.eq_def] at h
    simp_all
    try omega

/-- A successful string parse consumes at least the two quotes. -/
theorem parseJString_consumes (l : List Char) (s : String) (rest : List Char)
    (h : parseJString l = some (s, rest)) : rest.length < l.length := by
  cases l with
  | nil => simp [parseJString] at h
  | cons c l2 =>
    simp only [parseJString] at h
    by_cases hc : c = '"'
    · rw [if_pos hc] at h
      cases hb : parseStringBody l2 [] with
      | none => rw [hb] at h; simp at h
      | some p =>
        rw [hb] at h
        obtain ⟨cs, rest2⟩ := p
        simp only [Option.some.injEq, Prod.mk.injEq] at h
        have hlt := parseStringBody_consumes l2 [] cs rest2 hb
        rw [← h.2]
        simp only [List.length_cons]
        omega
    · rw [if_neg hc] at h; simp at h

/-- Match a fixed literal character sequence at the head of the input. -/
def expectChars (pat l : List Char) : Option (List Char) :=
  if l.take pat.length = pat then some (l.drop pat.length) else none

theorem expectChars_append (pat rest : List Char) :
    expectChars pat (pat ++ rest) = some rest := by
  simp [expectChars, List.take_left, List.drop_left]

theorem expectChars_consumes (pat l r : List Char) (h : expectChars pat l = some r) :
    r.length ≤ l.length := by
  simp only [expectChars] at h
  by_cases hc : l.take pat.length = pat
  · rw [if_pos hc] at h
    simp only [Option.some.injEq] at h
    rw [← h]
    simp [List.length_drop]
  · rw [if_neg hc] at h; simp at h

/-- Decode the items of a non-empty JSON array of strings (after the opening
bracket), separated by commas and ended by the closing bracket. -/
def parseStringItems (l : List Char) : Option (List String × List Char) :=
  match h : parseJString l with
  | none => none
  | some (s, rest) =>
    match rest with
    | [] => none
    | c :: rest2 =>
      if c = ',' then
        match parseStringItems rest2 with
        | some (ss, r) => some (s :: ss, r)
        | none => none
      else if c = ']' then some ([s], rest2)
      else none
termination_by l.length
decreasing_by
  have := parseJString_consumes l s (c :: rest2) h
  simp only [List.length_cons] at this
  omega

/-- Decode a JSON array of strings, returning the list and remaining input. -/
def parseStringListTop (l : List Char) : Option (List String × List Char) :=
  match l with
  | [] => none
  | c :: rest =>
    if c = '[' then
      match rest with
      | [] => none
      | c2 :: rest2 => if c2 = ']' then some ([], rest2) else parseStringItems rest
    else none

/-- JSON chars of a list of strings (Go marshals a slice as an array). -/
def encodeStringList (ss : List String) : List Char :=
  match ss with
  | [] => ['[', ']']
  | s :: rest =>
    '[' :: (encodeString s ++
      ((rest.map (fun t => ',' :: encodeString t)).flatten ++ [']']))

/-- Unfolding of `parseStringItems` when the leading string parse fails. -/
theorem parseStringItems_of_none (l : List Char) (h : parseJString l = none) :
    parseStringItems l = none := by
  rw [parseStringItems.eq_def]
  split
  · rfl
  · rename_i s2 rest2 heq
    rw [heq] at h
    exact absurd h (by simp)

/-- Unfolding of `parseStringItems` when the leading string parse succeeds. -/
theorem parseStringItems_of_parse (l : List Char) (s : String) (rest : List Char)
    (h : parseJString l = some (s, rest)) :
    parseStringItems l =
      (match rest with
      | [] => none
      | c :: rest2 =>
        if c = ',' then
          match parseStringItems rest2 with
          | some (ss, r) => some (s :: ss, r)
          | none => none
        else if c = ']' then some ([s], rest2)
        else none) := by
  rw [parseStringItems.eq_def]
  split
  · rename_i heq
    rw [heq] at h
    exact absurd h (by simp)
  · rename_i s2 rest2 heq
    rw [heq] at h
    simp only [Option.some.injEq, Prod.mk.injEq] at h
    obtain ⟨rfl, rfl⟩ := h
    cases rest2 with
    | nil => rfl
    | cons c r2 => rfl

/-- The item decoder inverts the encoder on a non-empty encoded item list. -/
theorem parseStringItems_encode (ss : List String) :
    ∀ (s : String) (rest : List Char),
      parseStringItems (encodeString s ++
          ((ss.map (fun t => ',' :: encodeString t)).flatten ++ (']' :: rest))) =
        some (s :: ss, rest) := by
  induction ss with
  | nil =>
    intro s rest
    rw [parseStringItems_of_parse _ s (']' :: rest) (by
      simpa using parseJString_encode s (']' :: rest))]
    simp +decide
  | cons t ts ih =>
    intro s rest
    have h1 : encodeString s ++
        ((((t :: ts).map (fun u => ',' :: encodeString u)).flatten) ++ (']' :: rest))
        = encodeString s ++ (',' :: (encodeString t ++
          ((ts.map (fun u => ',' :: encodeString u)).flatten ++ (']' :: rest)))) := by
      simp [List.append_assoc]
    rw [h1, parseStringItems_of_parse _ s _ (parseJString_encode s _)]
    simp only [if_pos rfl]
    rw [ih t rest]
    simp

/-- A successful item parse consumes at least the closing bracket. -/
theorem parseStringItems_consumes :
    ∀ (l : List Char) (ss : List String) (r : List Char),
      parseStringItems l = some (ss, r) → r.length < l.length := by
  intro l
  induction l using parseStringItems.induct with
  | case1 l heq =>
    intro ss r h
    rw [parseStringItems_of_none l heq] at h
    exact absurd h (by simp)
  | case2 l s heq1 heq2 =>
    intro ss r h
    rw [parseStringItems_of_parse l s [] heq1] at h
    exact absurd h (by simp)
  | case3 l s rest2 ss0 r0 hrec heq1 heq2 ih =>
    intro ss r h
    rw [parseStringItems_of_parse l s _ heq1] at h
    simp only [if_pos rfl, hrec, Option.some.injEq, Prod.mk.injEq] at h
    obtain ⟨h3, h4⟩ := h
    have h5 := ih ss0 r0 hrec
    have h2 := parseJString_consumes _ _ _ heq1
    simp only [List.length_cons] at h2
    omega
  | case4 l s rest2 hrec heq1 heq2 ih =>
    intro ss r h
    rw [parseStringItems_of_parse l s _ heq1] at h
    simp only [if_pos rfl, hrec] at h
    exact absurd h (by simp)
  | case5 l s rest2 heq1 hne heq2 =>
    intro ss r h
    rw [parseStringItems_of_parse l s _ heq1] at h
    simp +decide only [Option.some.injEq, Prod.mk.injEq] at h
    obtain ⟨h3, h4⟩ := h
    have h2 := parseJString_consumes _ _ _ heq1
    simp only [List.length_cons] at h2
    omega
  | case6 l s c rest2 heq1 hc1 hc2 heq2 =>
    intro ss r h
    rw [parseStringItems_of_parse l s _ heq1] at h
    simp only [if_neg hc1, if_neg hc2] at h
    exact absurd h (by simp)

/-- Unfolding of `parseStringListTop` on a bracket followed by a non-bracket. -/
theorem parseStringListTop_cons (c2 : Char) (rest2 : List Char) (h : ¬ c2 = ']') :
    parseStringListTop ('[' :: (c2 :: rest2)) = parseStringItems (c2 :: rest2) := by
  rw [parseStringListTop.eq_def]
  simp [if_neg h]

/-- The string-array decoder inverts the string-list encoder. -/
theorem parseStringListTop_encode (ss : List String) (rest : List Char) :
    parseStringListTop (encodeStringList ss ++ rest) = some (ss, rest) := by
  cases ss with
  | nil => simp [encodeStringList, parseStringListTop]
  | cons s ts =>
    have h1 : encodeStringList (s :: ts) ++ rest
        = '[' :: (encodeString s ++
          ((ts.map (fun u => ',' :: encodeString u)).flatten ++ (']' :: rest))) := by
      simp [encodeStringList, List.append_assoc]
    have h2 : encodeString s ++
        ((ts.map (fun u => ',' :: encodeString u)).flatten ++ (']' :: rest))
        = '"' :: (((s.data.map encodeChar).flatten ++ ['"']) ++
          ((ts.map (fun u => ',' :: encodeString u)).flatten ++ (']' :: rest))) := rfl
    rw [h1, h2, parseStringListTop_cons _ _ (by decide), ← h2]
    exact parseStringItems_encode ts s rest

/-- A successful string-array parse consumes at least the brackets. -/
theorem parseStringListTop_consumes (l : List Char) (ss : List String)
    (r : List Char) (h : parseStringListTop l = some (ss, r)) :
    r.length < l.length := by
  rw [parseStringListTop.eq_def] at h
  split at h
  · exact absurd h (by simp)
  · rename_i c rest
    split at h
    · split at h
      · exact absurd h (by simp)
      · rename_i c2 rest2
        split at h
        · simp only [Option.some.injEq, Prod.mk.injEq] at h
          obtain ⟨h3, h4⟩ := h
          subst h4
          simp only [List.length_cons]
          omega
        · have := parseStringItems_consumes _ _ _ h
          simp only [List.length_cons] at this ⊢
          omega
    · exact absurd h (by simp)

/-- Opening brace character of a JSON object. -/
def lbrace : Char := Char.ofNat 123

/-- Closing brace character of a JSON object. -/
def rbrace : Char := Char.ofNat 125

/-- JSON chars of a `Sock` record, with the spec-modelled field names
id/name/tags (the upstream record declaration is not in this repository). -/
def encodeSock (p : Sock) : List Char :=
  (lbrace :: "\"id\":".data) ++
    (encodeString p.ID ++
      ((',' :: "\"name\":".data) ++
        (encodeString p.Name ++
          ((',' :: "\"tags\":".data) ++
            (encodeStringList p.Tags ++ [rbrace])))))

/-- Decode a JSON `Sock` object in the exact field order the encoder emits. -/
def parseSock (l : List Char) : Option (Sock × List Char) :=
  match expectChars (lbrace :: "\"id\":".data) l with
  | none => none
  | some l1 =>
    match parseJString l1 with
    | none => none
    | some (idv, l2) =>
      match expectChars (',' :: "\"name\":".data) l2 with
      | none => none
      | some l3 =>
        match parseJString l3 with
        | none => none
        | some (namev, l4) =>
          match expectChars (',' :: "\"tags\":".data) l4 with
          | none => none
          | some l5 =>
            match parseStringListTop l5 with
            | none => none
            | some (tagsv, l6) =>
              match expectChars [rbrace] l6 with
              | none => none
              | some l7 => some (⟨idv, namev, tagsv⟩, l7)

/-- The object decoder inverts the record encoder. -/
theorem parseSock_encode (p : Sock) (rest : List Char) :
    parseSock (encodeSock p ++ rest) = some (p, rest) := by
  rw [encodeSock, parseSock]
  simp only [List.append_assoc, expectChars_append, parseJString_encode,
    parseStringListTop_encode]

/-- A successful object parse consumes at least one character. -/
theorem parseSock_consumes (l : List Char) (p : Sock) (r : List Char)
    (h : parseSock l = some (p, r)) : r.length < l.length := by
  rw [parseSock.eq_def] at h
  split at h
  · exact absurd h (by simp)
  · rename_i l1 he1
    split at h
    · exact absurd h (by simp)
    · rename_i idv l2 he2
      split at h
      · exact absurd h (by simp)
      · rename_i l3 he3
        split at h
        · exact absurd h (by simp)
        · rename_i namev l4 he4
          split at h
          · exact absurd h (by simp)
          · rename_i l5 he5
            split at h
            · exact absurd h (by simp)
            · rename_i tagsv l6 he6
              split at h
              · exact absurd h (by simp)
              · rename_i l7 he7
                simp only [Option.some.injEq, Prod.mk.injEq] at h
                obtain ⟨h1, h2⟩ := h
                subst h2
                have c1 := expectChars_consumes _ _ _ he1
                have c2 := parseJString_consumes _ _ _ he2
                have c3 := expectChars_consumes _ _ _ he3
                have c4 := parseJString_consumes _ _ _ he4
                have c5 := expectChars_consumes _ _ _ he5
                have c6 := parseStringListTop_consumes _ _ _ he6
                have c7 := expectChars_consumes _ _ _ he7
                omega

/-- Decode the items of a non-empty JSON array of `Sock` objects. -/
def parseSockItems (l : List Char) : Option (List Sock × List Char) :=
  match h : parseSock l with
  | none => none
  | some (p, rest) =>
    match rest with
    | [] => none
    | c :: rest2 =>
      if c = ',' then
        match parseSockItems rest2 with
        | some (ps, r) => some (p :: ps, r)
        | none => none
      else if c = ']' then some ([p], rest2)
      else none
termination_by l.length
decreasing_by
  have := parseSock_consumes l p (c :: rest2) h
  simp only [List.length_cons] at this
  omega

/-- Decode a JSON array of `Sock` objects. -/
def parseSockListTop (l : List Char) : Option (List Sock × List Char) :=
  match l with
  | [] => none
  | c :: rest =>
    if c = '[' then
      match rest with
      | [] => none
      | c2 :: rest2 => if c2 = ']' then some ([], rest2) else parseSockItems rest
    else none

/-- JSON chars of a list of `Sock` records. -/
def encodeSockList (ps : List Sock) : List Char :=
  match ps with
  | [] => ['[', ']']
  | p :: rest =>
    '[' :: (encodeSock p ++
      ((rest.map (fun q => ',' :: encodeSock q)).flatten ++ [']']))

/-- Unfolding of `parseSockItems` when the leading object parse succeeds. -/
theorem parseSockItems_of_parse (l : List Char) (p : Sock) (rest : List Char)
    (h : parseSock l = some (p, rest)) :
    parseSockItems l =
      (match rest with
      | [] => none
      | c :: rest2 =>
        if c = ',' then
          match parseSockItems rest2 with
          | some (ps, r) => some (p :: ps, r)
          | none => none
        else if c = ']' then some ([p], rest2)
        else none) := by
  rw [parseSockItems.eq_def]
  split
  · rename_i heq
    rw [heq] at h
    exact absurd h (by simp)
  · rename_i p2 rest2 heq
    rw [heq] at h
    simp only [Option.some.injEq, Prod.mk.injEq] at h
    obtain ⟨rfl, rfl⟩ := h
    cases rest2 with
    | nil => rfl
    | cons c r2 => rfl

/-- The item decoder inverts the encoder on a non-empty encoded object list. -/
theorem parseSockItems_encode (ps : List Sock) :
    ∀ (p : Sock) (rest : List Char),
      parseSockItems (encodeSock p ++
          ((ps.map (fun q => ',' :: encodeSock q)).flatten ++ (']' :: rest))) =
        some (p :: ps, rest) := by
  induction ps with
  | nil =>
    intro p rest
    rw [parseSockItems_of_parse _ p (']' :: rest) (by
      simpa using parseSock_encode p (']' :: rest))]
    simp +decide
  | cons q qs ih =>
    intro p rest
    have h1 : encodeSock p ++
        ((((q :: qs).map (fun u => ',' :: encodeSock u)).flatten) ++ (']' :: rest))
        = encodeSock p ++ (',' :: (encodeSock q ++
          ((qs.map (fun u => ',' :: encodeSock u)).flatten ++ (']' :: rest)))) := by
      simp [List.append_assoc]
    rw [h1, parseSockItems_of_parse _ p _ (parseSock_encode p _)]
    simp only [if_pos rfl]
    rw [ih q rest]
    simp

/-- The object-array decoder inverts the list encoder. -/
theorem parseSockListTop_encode (ps : List Sock) (rest : List Char) :
    parseSockListTop (encodeSockList ps ++ rest) = some (ps, rest) := by
  cases ps with
  | nil => simp [encodeSockList, parseSockListTop]
  | cons p qs =>
    have h1 : encodeSockList (p :: qs) ++ rest
        = '[' :: (encodeSock p ++
          ((qs.map (fun u => ',' :: encodeSock u)).flatten ++ (']' :: rest))) := by
      simp [encodeSockList, List.append_assoc]
    have h2 : encodeSock p ++
        ((qs.map (fun u => ',' :: encodeSock u)).flatten ++ (']' :: rest))
        = lbrace :: ("\"id\":".data ++
          (encodeString p.ID ++
            ((',' :: "\"name\":".data) ++
              (encodeString p.Name ++
                ((',' :: "\"tags\":".data) ++
                  (encodeStringList p.Tags ++ [rbrace])))) ++
            ((qs.map (fun u => ',' :: encodeSock u)).flatten ++ (']' :: rest)))) := by
      simp [encodeSock, List.append_assoc]
    rw [h1]
    rw [parseSockListTop.eq_def]
    rw [h2]
    simp only [if_pos rfl]
    rw [if_neg (show ¬ lbrace = ']' from by decide)]
    have h3 := parseSockItems_encode qs p rest
    rw [h2] at h3
    exact h3

/-- Set-side cache payload for a product list (`json.Marshal` in
`SetProducts`). -/
def encodeProductsS (ps : List Sock) : String := String.mk (encodeSockList ps)

/-- Set-side cache payload for a single product (`json.Marshal` in
`SetProduct`). -/
def encodeProductS (p : Sock) : String := String.mk (encodeSock p)

/-- Set-side cache payload for the tag list (`json.Marshal` in `SetTags`). -/
def encodeTagsS (ts : List String) : String := String.mk (encodeStringList ts)

/-- Get-side decoding of a product list (`json.Unmarshal` in `GetProducts`);
requires the whole payload to be one JSON array. -/
def decodeProducts (s : String) : Option (List Sock) :=
  match parseSockListTop s.data with
  | some (ps, []) => some ps
  | _ => none

/-- Get-side decoding of a single product (`json.Unmarshal` in
`GetProduct`). -/
def decodeProduct (s : String) : Option Sock :=
  match parseSock s.data with
  | some (p, []) => some p
  | _ => none

/-- Get-side decoding of the tag list (`json.Unmarshal` in `GetTags`). -/
def decodeTags (s : String) : Option (List String) :=
  match parseStringListTop s.data with
  | some (ts, []) => some ts
  | _ => none

theorem decodeProducts_encode (ps : List Sock) :
    decodeProducts (encodeProductsS ps) = some ps := by
  have h := parseSockListTop_encode ps []
  rw [List.append_nil] at h
  simp only [decodeProducts, encodeProductsS]
  rw [h]

theorem decodeProduct_encode (p : Sock) :
    decodeProduct (encodeProductS p) = some p := by
  have h := parseSock_encode p []
  rw [List.append_nil] at h
  simp only [decodeProduct, encodeProductS]
  rw [h]

theorem decodeTags_encode (ts : List String) :
    decodeTags (encodeTagsS ts) = some ts := by
  have h := parseStringListTop_encode ts []
  rw [List.append_nil] at h
  simp only [decodeTags, encodeTagsS]
  rw [h]

/-! ## Decimal integer codec (model of `strconv` as used for the count)

`SetCount` hands the Go `int` to the Redis client, which encodes it in
decimal (`strconv.AppendInt`); `GetCount` parses it back with
`strconv.Atoi`.  Go's `int` is modelled as `Int`. -/

/-- Decimal digits of a natural number accumulated in front of `acc`; the
fuel argument bounds the loop iterations so the function is structurally
recursive (as in the standard library's digit core). -/
def toDigitsAux : Nat → Nat → List Char → List Char
  | 0, _, acc => acc
  | fuel + 1, n, acc =>
    let d := Char.ofNat (48 + n % 10)
    if n < 10 then d :: acc else toDigitsAux fuel (n / 10) (d :: acc)

/-- Decimal digits of a natural number. -/
def natDigits (n : Nat) : List Char := toDigitsAux (n + 1) n []

/-- Decimal rendering of a Go `int` (`strconv.Itoa`). -/
def goItoa (i : Int) : String :=
  if i < 0 then String.mk ('-' :: natDigits i.natAbs)
  else String.mk (natDigits i.toNat)

/-- Value of a decimal digit character, if it is one. -/
def digitVal (c : Char) : Option Nat :=
  if 48 ≤ c.toNat ∧ c.toNat ≤ 57 then some (c.toNat - 48) else none

/-- Accumulating decimal parse; fails at the first non-digit. -/
def digitsVal : List Char → Nat → Option Nat
  | [], acc => some acc
  | c :: rest, acc =>
    match digitVal c with
    | some d => digitsVal rest (acc * 10 + d)
    | none => none

/-- Decimal parse of a Go `int` (`strconv.Atoi`): optional sign, then a
non-empty run of digits covering the whole input. -/
def goAtoi (s : String) : Option Int :=
  match s.data with
  | [] => none
  | c :: ds =>
    if c = '-' then
      match ds with
      | [] => none
      | _ => (digitsVal ds 0).map (fun n => -(n : Int))
    else if c = '+' then
      match ds with
      | [] => none
      | _ => (digitsVal ds 0).map (fun n => (n : Int))
    else (digitsVal (c :: ds) 0).map (fun n => (n : Int))

/-- Number of decimal digits `toDigitsAux` emits. -/
def numDigits : Nat → Nat
  | n => if n < 10 then 1 else numDigits (n / 10) + 1
termination_by n => n
decreasing_by
  exact Nat.div_lt_self (by omega) (by omega)

theorem charToNat_ofNat (m : Nat) (h : m < 55296) : (Char.ofNat m).toNat = m := by
  simp [Char.ofNat, Nat.isValidChar, h, Char.toNat, Char.ofNatAux]
  rfl

theorem digitVal_digit (d : Nat) (h : d < 10) :
    digitVal (Char.ofNat (48 + d)) = some d := by
  interval_cases d <;> decide

theorem digitsVal_toDigitsAux (n : Nat) :
    ∀ (fuel : Nat) (acc : List Char) (a : Nat), n < fuel →
      digitsVal (toDigitsAux fuel n acc) a
        = digitsVal acc (a * 10 ^ numDigits n + n) := by
  induction n using Nat.strong_induction_on with
  | _ n ih =>
    intro fuel acc a hfuel
    obtain ⟨f, rfl⟩ : ∃ f, fuel = f + 1 := by
      cases fuel
      · omega
      · exact ⟨_, rfl⟩
    by_cases h : n < 10
    · rw [toDigitsAux, if_pos h]
      simp only [digitsVal, digitVal_digit (n % 10) (Nat.mod_lt _ (by omega))]
      conv_rhs => rw [numDigits]
      rw [if_pos h]
      have hmn : n % 10 = n := Nat.mod_eq_of_lt h
      rw [hmn, pow_one]
    · rw [toDigitsAux, if_neg h]
      rw [ih (n / 10) (Nat.div_lt_self (by omega) (by omega)) f _ _ (by omega)]
      simp only [digitsVal, digitVal_digit (n % 10) (Nat.mod_lt _ (by omega))]
      conv_rhs => rw [numDigits]
      rw [if_neg h]
      congr 1
      have hdm : n / 10 * 10 + n % 10 = n := by omega
      have hstep : (a * 10 ^ numDigits (n / 10) + n / 10) * 10 + n % 10
          = a * (10 ^ numDigits (n / 10) * 10) + (n / 10 * 10 + n % 10) := by ring
      rw [hstep, hdm, ← pow_succ]

theorem toDigitsAux_ne_nil (n : Nat) :
    ∀ (fuel : Nat) (acc : List Char), n < fuel → toDigitsAux fuel n acc ≠ [] := by
  induction n using Nat.strong_induction_on with
  | _ n ih =>
    intro fuel acc hfuel
    obtain ⟨f, rfl⟩ : ∃ f, fuel = f + 1 := by
      cases fuel
      · omega
      · exact ⟨_, rfl⟩
    by_cases h : n < 10
    · rw [toDigitsAux, if_pos h]; simp
    · rw [toDigitsAux, if_neg h]
      exact ih (n / 10) (Nat.div_lt_self (by omega) (by omega)) f _ (by omega)

/-- The digits of a natural number are non-empty. -/
theorem natDigits_ne_nil (n : Nat) : natDigits n ≠ [] :=
  toDigitsAux_ne_nil n (n + 1) [] (by omega)

/-- The digits of a natural number parse back to it. -/
theorem digitsVal_natDigits (n : Nat) : digitsVal (natDigits n) 0 = some n := by
  rw [natDigits, digitsVal_toDigitsAux n (n + 1) [] 0 (by omega)]
  simp [digitsVal]

/-- Every character `toDigitsAux` emits is a decimal digit. -/
theorem toDigitsAux_digits (n : Nat) :
    ∀ (fuel : Nat) (acc : List Char) (c : Char), c ∈ toDigitsAux fuel n acc →
      c ∈ acc ∨ (48 ≤ c.toNat ∧ c.toNat ≤ 57) := by
  induction n using Nat.strong_induction_on with
  | _ n ih =>
    intro fuel acc c hc
    cases fuel with
    | zero => exact Or.inl hc
    | succ f =>
      by_cases h : n < 10
      · rw [toDigitsAux, if_pos h] at hc
        rcases List.mem_cons.mp hc with h1 | h1
        · right
          subst h1
          have : n % 10 < 10 := Nat.mod_lt _ (by omega)
          have hv : (Char.ofNat (48 + n % 10)).toNat = 48 + n % 10 :=
            charToNat_ofNat _ (by omega)
          omega
        · exact Or.inl h1
      · rw [toDigitsAux, if_neg h] at hc
        rcases ih (n / 10) (Nat.div_lt_self (by omega) (by omega)) f _ c hc
          with h1 | h1
        · rcases List.mem_cons.mp h1 with h2 | h2
          · right
            subst h2
            have : n % 10 < 10 := Nat.mod_lt _ (by omega)
            have hv : (Char.ofNat (48 + n % 10)).toNat = 48 + n % 10 :=
              charToNat_ofNat _ (by omega)
            omega
          · exact Or.inl h2
        · exact Or.inr h1

/-- Every character `natDigits` emits is a decimal digit. -/
theorem natDigits_digits (n : Nat) (c : Char) (hc : c ∈ natDigits n) :
    48 ≤ c.toNat ∧ c.toNat ≤ 57 := by
  rcases toDigitsAux_digits n (n + 1) [] c hc with h | h
  · exact absurd h (List.not_mem_nil _)
  · exact h

/-- The decimal parse inverts the decimal rendering: `Atoi (Itoa i) = i`. -/
theorem goAtoi_goItoa (i : Int) : goAtoi (goItoa i) = some i := by
  by_cases hneg : i < 0
  · rw [goItoa, if_pos hneg]
    show goAtoi (String.mk ('-' :: natDigits i.natAbs)) = some i
    cases hd : natDigits i.natAbs with
    | nil => exact absurd hd (natDigits_ne_nil _)
    | cons c2 rest =>
      show (digitsVal (c2 :: rest) 0).map (fun n => -(n : Int)) = some i
      rw [← hd, digitsVal_natDigits]
      show some (-(i.natAbs : Int)) = some i
      congr 1
      omega
  · rw [goItoa, if_neg hneg]
    show goAtoi (String.mk (natDigits i.toNat)) = some i
    cases hd : natDigits i.toNat with
    | nil => exact absurd hd (natDigits_ne_nil _)
    | cons c2 rest =>
      have hmem : c2 ∈ natDigits i.toNat := by
        rw [hd]; exact List.mem_cons_self _ _
      have hdig : 48 ≤ c2.toNat ∧ c2.toNat ≤ 57 := natDigits_digits _ _ hmem
      have hc1 : ¬ c2 = '-' := by
        intro hcc; rw [hcc] at hdig; revert hdig; decide
      have hc2 : ¬ c2 = '+' := by
        intro hcc; rw [hcc] at hdig; revert hdig; decide
      rw [goAtoi.eq_def]
      simp only [if_neg hc1, if_neg hc2]
      rw [← hd, digitsVal_natDigits]
      show some ((i.toNat : Int)) = some i
      congr 1
      omega

/-! ## Key derivation (model of the `catalogueCache` key generators) -/

/-- Go `strings.Join`: empty string for an empty list, otherwise the first
element followed by separator-plus-element for each remaining element. -/
def goJoin (sep : String) : List String → String
  | [] => ""
  | s :: rest => rest.foldl (fun acc t => acc ++ sep ++ t) s

namespace catalogueCache

/-- Cache key for a product-list query (`productListKey`). -/
def productListKey (tags : List String) (order : String)
    (pageNum pageSize : Int) : String :=
  let tagsStr := goJoin "," tags
  let tagsStr := if tagsStr = "" then "all" else tagsStr
  "catalogue:products:" ++ tagsStr ++ ":order:" ++ order ++ ":page:" ++
    goItoa pageNum ++ ":size:" ++ goItoa pageSize

/-- Cache key for a single product (`productKey`). -/
def productKey (id : String) : String := "catalogue:product:" ++ id

/-- Cache key for a count query (`countKey`). -/
def countKey (tags : List String) : String :=
  let tagsStr := goJoin "," tags
  let tagsStr := if tagsStr = "" then "all" else tagsStr
  "catalogue:count:" ++ tagsStr

/-- Cache key for the tag list (`tagsKey`). -/
def tagsKey : String := "catalogue:tags:all"

end catalogueCache

/-! ## The key-value store and the Redis-backed cache operations

The remote store is modelled as a partial map from keys to stored strings;
`redis.Nil` (key absent) is `none`.  Transport-level errors are modelled at
the coordinator's interface level instead (see `CacheGetRes`), so the
store-backed operations here embody the non-error paths of
`catalogueCache.GetProducts`/`GetProduct`/`GetCount`/`GetTags` including the
corrupted-payload recovery. -/

/-- The remote key-value store's visible contents. -/
def Store := String → Option String

/-- Redis `SET key val`. -/
def storeSet (st : Store) (key val : String) : Store :=
  fun k => if k = key then some val else st k

/-- Redis `DEL key`. -/
def storeDel (st : Store) (key : String) : Store :=
  fun k => if k = key then none else st k

/-- Result of a store-backed cache Get: the returned triple
(value, found, err), the store afterwards, and whether a delete of a
corrupted entry was issued. -/
structure CacheGetOutcome (α : Type) where
  value : α
  found : Bool
  err : Option GoErr
  store : Store
  delIssued : Bool

namespace catalogueCache

/-- `GetProducts`: look up the derived key; absent is a miss; a payload that
fails to unmarshal is deleted (best effort) and reported as a miss. -/
def GetProducts (st : Store) (tags : List String) (order : String)
    (pageNum pageSize : Int) : CacheGetOutcome (List Sock) :=
  let key := productListKey tags order pageNum pageSize
  match st key with
  | none => ⟨[], false, none, st, false⟩
  | some val =>
    match decodeProducts val with
    | none => ⟨[], false, none, storeDel st key, true⟩
    | some products => ⟨products, true, none, st, false⟩

/-- `SetProducts`: marshal the list and store it under the derived key. -/
def SetProducts (st : Store) (tags : List String) (order : String)
    (pageNum pageSize : Int) (products : List Sock) : Store :=
  storeSet st (productListKey tags order pageNum pageSize)
    (encodeProductsS products)

/-- `GetProduct` for a single product id. -/
def GetProduct (st : Store) (id : String) : CacheGetOutcome Sock :=
  let key := productKey id
  match st key with
  | none => ⟨sockZero, false, none, st, false⟩
  | some val =>
    match decodeProduct val with
    | none => ⟨sockZero, false, none, storeDel st key, true⟩
    | some product => ⟨product, true, none, st, false⟩

/-- `SetProduct` for a single product id. -/
def SetProduct (st : Store) (id : String) (product : Sock) : Store :=
  storeSet st (productKey id) (encodeProductS product)

/-- `GetCount`: the stored text is parsed with `strconv.Atoi`; non-integer
text is corrupted, deleted and reported as a miss. -/
def GetCount (st : Store) (tags : List String) : CacheGetOutcome Int :=
  let key := countKey tags
  match st key with
  | none => ⟨0, false, none, st, false⟩
  | some val =>
    match goAtoi val with
    | none => ⟨0, false, none, storeDel st key, true⟩
    | some count => ⟨count, true, none, st, false⟩

/-- `SetCount`: the Go int is stored in decimal. -/
def SetCount (st : Store) (tags : List String) (count : Int) : Store :=
  storeSet st (countKey tags) (goItoa count)

/-- `GetTags` under the constant tags key. -/
def GetTags (st : Store) : CacheGetOutcome (List String) :=
  let key := tagsKey
  match st key with
  | none => ⟨[], false, none, st, false⟩
  | some val =>
    match decodeTags val with
    | none => ⟨[], false, none, storeDel st key, true⟩
    | some tags => ⟨tags, true, none, st, false⟩

/-- `SetTags` under the constant tags key. -/
def SetTags (st : Store) (tags : List String) : Store :=
  storeSet st tagsKey (encodeTagsS tags)

end catalogueCache

/-! ## Metrics recorder (model of `CacheMetrics`)

Counters are Go int64 values that only ever increase from zero; durations
are nanosecond counts.  The float64 hit ratio is modelled exactly in `ℚ`. -/

/-- The mutable counter state of `CacheMetrics`. -/
structure CacheMetrics where
  totalRequests : Nat
  cacheHits : Nat
  cacheMisses : Nat
  cacheErrors : Nat
  totalResponseTime : Nat
  cacheResponseTime : Nat
  dbResponseTime : Nat
  listRequests : Nat
  getRequests : Nat
  countRequests : Nat
  tagsRequests : Nat
  deriving DecidableEq, Repr

/-- `NewCacheMetrics`: all counters start at zero. -/
def NewCacheMetrics : CacheMetrics := ⟨0, 0, 0, 0, 0, 0, 0, 0, 0, 0, 0⟩

/-- `incrementOperationCounter`: bump the per-operation counter; unknown
operation strings are ignored (the Go switch has no default case). -/
def incrementOperationCounter (op : String) (m : CacheMetrics) : CacheMetrics :=
  if op = "List" then { m with listRequests := m.listRequests + 1 }
  else if op = "Get" then { m with getRequests := m.getRequests + 1 }
  else if op = "Count" then { m with countRequests := m.countRequests + 1 }
  else if op = "Tags" then { m with tagsRequests := m.tagsRequests + 1 }
  else m

/-- `RecordCacheHit`. -/
def RecordCacheHit (op : String) (d : Nat) (m : CacheMetrics) : CacheMetrics :=
  incrementOperationCounter op
    { m with
      totalRequests := m.totalRequests + 1
      cacheHits := m.cacheHits + 1
      totalResponseTime := m.totalResponseTime + d
      cacheResponseTime := m.cacheResponseTime + d }

/-- `RecordCacheMiss`. -/
def RecordCacheMiss (op : String) (d : Nat) (m : CacheMetrics) : CacheMetrics :=
  incrementOperationCounter op
    { m with
      totalRequests := m.totalRequests + 1
      cacheMisses := m.cacheMisses + 1
      totalResponseTime := m.totalResponseTime + d
      dbResponseTime := m.dbResponseTime + d }

/-- `RecordCacheError`: bucketed with misses for the db response time. -/
def RecordCacheError (op : String) (d : Nat) (m : CacheMetrics) : CacheMetrics :=
  incrementOperationCounter op
    { m with
      totalRequests := m.totalRequests + 1
      cacheErrors := m.cacheErrors + 1
      totalResponseTime := m.totalResponseTime + d
      dbResponseTime := m.dbResponseTime + d }

/-- The snapshot returned by `GetMetrics`. -/
structure MetricsSnapshot where
  TotalRequests : Nat
  CacheHits : Nat
  CacheMisses : Nat
  CacheErrors : Nat
  HitRatio : ℚ
  AvgResponseTime : Nat
  AvgCacheResponseTime : Nat
  AvgDbResponseTime : Nat
  ListRequests : Nat
  GetRequests : Nat
  CountRequests : Nat
  TagsRequests : Nat
  deriving DecidableEq, Repr

/-- `GetMetrics`: averages use integer (duration) division; every ratio is
zero when its denominator is zero. -/
def GetMetrics (m : CacheMetrics) : MetricsSnapshot :=
  { TotalRequests := m.totalRequests
    CacheHits := m.cacheHits
    CacheMisses := m.cacheMisses
    CacheErrors := m.cacheErrors
    HitRatio :=
      if m.totalRequests > 0 then
        (m.cacheHits : ℚ) / (m.totalRequests : ℚ) * 100
      else 0
    AvgResponseTime :=
      if m.totalRequests > 0 then m.totalResponseTime / m.totalRequests else 0
    AvgCacheResponseTime :=
      if m.cacheHits > 0 then m.cacheResponseTime / m.cacheHits else 0
    AvgDbResponseTime :=
      if m.cacheMisses + m.cacheErrors > 0 then
        m.dbResponseTime / (m.cacheMisses + m.cacheErrors)
      else 0
    ListRequests := m.listRequests
    GetRequests := m.getRequests
    CountRequests := m.countRequests
    TagsRequests := m.tagsRequests }

/-- One call into the metrics recorder, as issued by the coordinator. -/
inductive MetricsCall where
  | hit (op : String) (d : Nat)
  | miss (op : String) (d : Nat)
  | error (op : String) (d : Nat)
  deriving DecidableEq, Repr

/-- Apply one recorded call to the metrics state. -/
def applyCall (m : CacheMetrics) : MetricsCall → CacheMetrics
  | .hit op d => RecordCacheHit op d m
  | .miss op d => RecordCacheMiss op d m
  | .error op d => RecordCacheError op d m

/-- Apply a sequence of recorded calls in order. -/
def applyCalls (m : CacheMetrics) (calls : List MetricsCall) : CacheMetrics :=
  calls.foldl applyCall m

/-! ## The cached read coordinator (model of `CachedService`)

Each of the four read methods follows the identical decision protocol; it is
factored here as `readThrough`, instantiated per operation.  Inputs are the
outcome of the one cache Get the method performs (at the `CatalogueCache`
interface) and the outcome the authoritative service would return; the
model records the caller-visible result, the metrics calls issued, whether
the authoritative service was invoked, and whether an asynchronous cache
Set was scheduled. -/

/-- The triple a `CatalogueCache` Get returns to the coordinator. -/
structure CacheGetRes (α : Type) where
  value : α
  found : Bool
  err : Option GoErr

/-- Caller-visible outcome of one coordinator read. -/
structure ReadOutcome (α : Type) where
  value : α
  err : Option GoErr
  events : List MetricsCall
  dbCalled : Bool
  setScheduled : Bool

/-- The read-through protocol shared by `List`, `Count`, `Get` and `Tags`:
on cache error record an error and fall back; on hit return the cached
value; otherwise call the authoritative service, record a miss, propagate
its error verbatim, and on success schedule the asynchronous cache write.
`dCache`, `dHit` and `dDb` are the elapsed durations at the three
measurement points. -/
def readThrough {α : Type} (op : String) (cacheRes : CacheGetRes α)
    (dbRes : α × Option GoErr) (dCache dHit dDb : Nat) : ReadOutcome α :=
  if cacheRes.err ≠ none then
    match dbRes with
    | (v, some e) =>
      ⟨v, some e, [MetricsCall.error op dCache, MetricsCall.miss op dDb],
        true, false⟩
    | (v, none) =>
      ⟨v, none, [MetricsCall.error op dCache, MetricsCall.miss op dDb],
        true, true⟩
  else if cacheRes.found then
    ⟨cacheRes.value, none, [MetricsCall.hit op dHit], false, false⟩
  else
    match dbRes with
    | (v, some e) => ⟨v, some e, [MetricsCall.miss op dDb], true, false⟩
    | (v, none) => ⟨v, none, [MetricsCall.miss op dDb], true, true⟩

/-- Abbreviation used inside the `CachedService` namespace, where `List`
names the read operation. -/
abbrev SockList := List Sock

/-- Abbreviation used inside the `CachedService` namespace. -/
abbrev TagList := List String

namespace CachedService

/-- `CachedService.List`. -/
def List (cacheRes : CacheGetRes SockList) (dbRes : SockList × Option GoErr)
    (dCache dHit dDb : Nat) : ReadOutcome SockList :=
  readThrough "List" cacheRes dbRes dCache dHit dDb

/-- `CachedService.Count`. -/
def Count (cacheRes : CacheGetRes Int) (dbRes : Int × Option GoErr)
    (dCache dHit dDb : Nat) : ReadOutcome Int :=
  readThrough "Count" cacheRes dbRes dCache dHit dDb

/-- `CachedService.Get`. -/
def Get (cacheRes : CacheGetRes Sock) (dbRes : Sock × Option GoErr)
    (dCache dHit dDb : Nat) : ReadOutcome Sock :=
  readThrough "Get" cacheRes dbRes dCache dHit dDb

/-- `CachedService.Tags`. -/
def Tags (cacheRes : CacheGetRes TagList)
    (dbRes : TagList × Option GoErr) (dCache dHit dDb : Nat) :
    ReadOutcome TagList :=
  readThrough "Tags" cacheRes dbRes dCache dHit dDb

end CachedService

/-- Interface-level view of a store-backed cache Get. -/
def CacheGetOutcome.res {α : Type} (g : CacheGetOutcome α) : CacheGetRes α :=
  ⟨g.value, g.found, g.err⟩

/-! ## Cache warmer (model of `CacheWarmer`)

The three phases of `WarmCache` are modelled as functions of the outcomes
the authoritative service and the cache would give during the run; the
result is the list of cache writes that actually succeed, in order.  The
warmer wraps the base service, not the cached one. -/

/-- One entry of the fixed listing table `warmProductListings` iterates. -/
structure WarmListing where
  tags : List String
  order : String
  pageNum : Int
  pageSize : Int
  deriving DecidableEq, Repr

/-- The fixed table of common listing patterns to warm, as in the source. -/
def warmListings : List WarmListing :=
  [⟨[], "", 1, 6⟩, ⟨[], "", 1, 12⟩, ⟨[], "price", 1, 6⟩, ⟨[], "name", 1, 6⟩,
    ⟨["brown"], "", 1, 6⟩, ⟨["blue"], "", 1, 6⟩, ⟨["geek"], "", 1, 6⟩]

/-- Outcomes of the external calls a warming run performs: the
authoritative service's answers, and whether each cache write succeeds
(`none` is a nil error). -/
structure WarmEnv where
  svcList : WarmListing → List Sock × Option GoErr
  setProductsErr : WarmListing → Option GoErr
  svcCount : List String → Int × Option GoErr
  setCountErr : List String → Option GoErr
  svcTags : List String × Option GoErr
  setTagsErr : Option GoErr
  svcGet : String → Sock × Option GoErr
  setProductErr : String → Option GoErr

/-- A cache write that succeeded during warming. -/
inductive WarmWrite where
  | tagsEntry (tags : List String)
  | productsEntry (l : WarmListing) (products : List Sock)
  | countEntry (tags : List String) (count : Int)
  | productEntry (id : String) (p : Sock)
  deriving DecidableEq, Repr

/-- `warmTags`: fetch all tags, then write them; either failure aborts the
phase after logging. -/
def warmTags (env : WarmEnv) : List WarmWrite :=
  match env.svcTags with
  | (_, some _) => []
  | (tags, none) =>
    match env.setTagsErr with
    | some _ => []
    | none => [WarmWrite.tagsEntry tags]

/-- The per-listing body of `warmProductListings`: fetch the listing, write
it, then also warm the matching count (count failures are ignored apart
from skipping that write). A failure returns from the per-listing closure
only. -/
def warmOneListing (env : WarmEnv) (l : WarmListing) : List WarmWrite :=
  match env.svcList l with
  | (_, some _) => []
  | (products, none) =>
    match env.setProductsErr l with
    | some _ => []
    | none =>
      match env.svcCount l.tags with
      | (_, some _) => [WarmWrite.productsEntry l products]
      | (count, none) =>
        match env.setCountErr l.tags with
        | some _ => [WarmWrite.productsEntry l products]
        | none => [WarmWrite.productsEntry l products,
            WarmWrite.countEntry l.tags count]

/-- `warmProductListings`: iterate the listing table, running the
per-listing closure for each entry in order. -/
def warmProductListings (env : WarmEnv) (listings : List WarmListing) :
    List WarmWrite :=
  (listings.map (warmOneListing env)).flatten

/-- The per-product body of the `warmIndividualProducts` loop: fetch the
full record and write it; a failure `continue`s, contributing nothing. -/
def warmOneProduct (env : WarmEnv) (p : Sock) : List WarmWrite :=
  match env.svcGet p.ID with
  | (_, some _) => []
  | (fullProduct, none) =>
    match env.setProductErr p.ID with
    | some _ => []
    | none => [WarmWrite.productEntry p.ID fullProduct]

/-- `warmIndividualProducts`: fetch the first ten products; a failure there
aborts the phase; per-product failures `continue` with the next product. -/
def warmIndividualProducts (env : WarmEnv) : List WarmWrite :=
  match env.svcList ⟨[], "", 1, 10⟩ with
  | (_, some _) => []
  | (products, none) => (products.map (warmOneProduct env)).flatten

/-- `WarmCache`: the three phases, each a function of its own inputs only. -/
def WarmCache (env : WarmEnv) :
    List WarmWrite × List WarmWrite × List WarmWrite :=
  (warmTags env, warmProductListings env warmListings,
    warmIndividualProducts env)

/-! ## Helper lemmas about the read-through protocol -/

/-- If the cache Get errored or missed, the coordinator returns exactly what
the authoritative service returns. -/
theorem readThrough_fallback {α : Type} (op : String) (c : CacheGetRes α)
    (db : α × Option GoErr) (d1 d2 d3 : Nat)
    (h : c.err ≠ none ∨ c.found = false) :
    (readThrough op c db d1 d2 d3).value = db.1 ∧
      (readThrough op c db d1 d2 d3).err = db.2 := by
  unfold readThrough
  by_cases he : c.err = none
  · have hf : c.found = false := by
      rcases h with h | h
      · exact absurd he h
      · exact h
    rw [if_neg (by simp [he]), if_neg (by simp [hf])]
    obtain ⟨v, e⟩ := db
    cases e <;> simp
  · rw [if_pos (by simp [he])]
    obtain ⟨v, e⟩ := db
    cases e <;> simp

/-- On a clean cache hit the coordinator returns the cached value, reports
a hit, and never calls the authoritative service or schedules a write. -/
theorem readThrough_hit {α : Type} (op : String) (c : CacheGetRes α)
    (db : α × Option GoErr) (d1 d2 d3 : Nat)
    (he : c.err = none) (hf : c.found = true) :
    readThrough op c db d1 d2 d3 =
      ⟨c.value, none, [MetricsCall.hit op d2], false, false⟩ := by
  unfold readThrough
  rw [if_neg (by simp [he]), if_pos hf]

/-- When the coordinator falls back and the authoritative call errors, the
error is propagated verbatim, no write is scheduled, a miss is recorded
(never a hit), and a cache-error record precedes it exactly when the cache
Get itself errored. -/
theorem readThrough_dbError {α : Type} (op : String) (c : CacheGetRes α)
    (v : α) (e : GoErr) (d1 d2 d3 : Nat)
    (h : ¬ (c.err = none ∧ c.found = true)) :
    (readThrough op c (v, some e) d1 d2 d3).err = some e ∧
      (readThrough op c (v, some e) d1 d2 d3).value = v ∧
      (readThrough op c (v, some e) d1 d2 d3).setScheduled = false ∧
      (c.err = none →
        (readThrough op c (v, some e) d1 d2 d3).events =
          [MetricsCall.miss op d3]) ∧
      (c.err ≠ none →
        (readThrough op c (v, some e) d1 d2 d3).events =
          [MetricsCall.error op d1, MetricsCall.miss op d3]) := by
  unfold readThrough
  by_cases he : c.err = none
  · have hf : c.found = false := by
      cases hfv : c.found
      · rfl
      · exact absurd ⟨he, hfv⟩ h
    rw [if_neg (by simp [he]), if_neg (by simp [hf])]
    simp [he]
  · rw [if_pos (by simp [he])]
    simp [he]

/-- On a fallback with a successful authoritative call the coordinator
returns the fresh value with no error and schedules the asynchronous cache
write. -/
theorem readThrough_dbOk {α : Type} (op : String) (c : CacheGetRes α)
    (v : α) (d1 d2 d3 : Nat) (h : c.err ≠ none ∨ c.found = false) :
    (readThrough op c (v, none) d1 d2 d3).err = none ∧
      (readThrough op c (v, none) d1 d2 d3).value = v ∧
      (readThrough op c (v, none) d1 d2 d3).setScheduled = true := by
  unfold readThrough
  by_cases he : c.err = none
  · have hf : c.found = false := by
      rcases h with h | h
      · exact absurd he h
      · exact h
    rw [if_neg (by simp [he]), if_neg (by simp [hf])]
    simp
  · rw [if_pos (by simp [he])]
    simp

/-! ## Claim theorems -/

/-- C1: for every read operation (List, Get, Count, Tags), if the cache Get
errors or reports not-found, the coordinator returns exactly the
authoritative service's value, and it returns an error if and only if the
authoritative call itself errored — no cache failure is surfaced. -/
theorem claim1_cache_failure_fallback :
    ∀ (cl : CacheGetRes (List Sock)) (dbl : List Sock × Option GoErr)
      (cg : CacheGetRes Sock) (dbg : Sock × Option GoErr)
      (cc : CacheGetRes Int) (dbc : Int × Option GoErr)
      (ct : CacheGetRes (List String)) (dbt : List String × Option GoErr)
      (d1 d2 d3 : Nat),
      (cl.err ≠ none ∨ cl.found = false) →
      (cg.err ≠ none ∨ cg.found = false) →
      (cc.err ≠ none ∨ cc.found = false) →
      (ct.err ≠ none ∨ ct.found = false) →
      ((CachedService.List cl dbl d1 d2 d3).value = dbl.1 ∧
        (CachedService.List cl dbl d1 d2 d3).err = dbl.2) ∧
      ((CachedService.Get cg dbg d1 d2 d3).value = dbg.1 ∧
        (CachedService.Get cg dbg d1 d2 d3).err = dbg.2) ∧
      ((CachedService.Count cc dbc d1 d2 d3).value = dbc.1 ∧
        (CachedService.Count cc dbc d1 d2 d3).err = dbc.2) ∧
      ((CachedService.Tags ct dbt d1 d2 d3).value = dbt.1 ∧
        (CachedService.Tags ct dbt d1 d2 d3).err = dbt.2) := by
  intro cl dbl cg dbg cc dbc ct dbt d1 d2 d3 h1 h2 h3 h4
  exact ⟨readThrough_fallback _ _ _ _ _ _ h1, readThrough_fallback _ _ _ _ _ _ h2,
    readThrough_fallback _ _ _ _ _ _ h3, readThrough_fallback _ _ _ _ _ _ h4⟩

/-- Witness for C1 at concrete inputs: an erroring cache for List and Get,
a missing cache for Count and Tags, against a succeeding (List, Count,
Tags) and a failing (Get) authoritative service. -/
theorem claim1_cache_failure_fallback_witness :
    ((CacheGetRes.mk ([] : List Sock) false (some ⟨"timeout"⟩)).err ≠ none ∨
      (CacheGetRes.mk ([] : List Sock) false (some ⟨"timeout"⟩)).found = false) ∧
    ((CachedService.List ⟨[], false, some ⟨"timeout"⟩⟩
        ([⟨"a1", "sock", ["geek"]⟩], none) 1 2 3).value = [⟨"a1", "sock", ["geek"]⟩] ∧
      (CachedService.List ⟨[], false, some ⟨"timeout"⟩⟩
        ([⟨"a1", "sock", ["geek"]⟩], none) 1 2 3).err = none) ∧
    ((CachedService.Get ⟨sockZero, false, some ⟨"timeout"⟩⟩
        (sockZero, some ⟨"not found"⟩) 1 2 3).err = some ⟨"not found"⟩) := by
  have h := claim1_cache_failure_fallback
    ⟨[], false, some ⟨"timeout"⟩⟩ ([⟨"a1", "sock", ["geek"]⟩], none)
    ⟨sockZero, false, some ⟨"timeout"⟩⟩ (sockZero, some ⟨"not found"⟩)
    ⟨0, false, none⟩ (3, none)
    ⟨[], false, none⟩ (["geek"], none)
    1 2 3 (by simp) (by simp) (by simp) (by simp)
  exact ⟨by simp, h.1, h.2.1.2⟩

/-- C2: if the cache holds a value under the derived key and it
deserializes, the coordinator returns exactly that deserialized value and
never invokes the authoritative service — for all four read operations. -/
theorem claim2_hit_path_no_db_call :
    (∀ (st : Store) (tags : List String) (order : String) (pn psz : Int)
      (raw : String) (v : List Sock) (dbRes : List Sock × Option GoErr)
      (d1 d2 d3 : Nat),
      st (catalogueCache.productListKey tags order pn psz) = some raw →
      decodeProducts raw = some v →
      (CachedService.List (catalogueCache.GetProducts st tags order pn psz).res
          dbRes d1 d2 d3).value = v ∧
      (CachedService.List (catalogueCache.GetProducts st tags order pn psz).res
          dbRes d1 d2 d3).err = none ∧
      (CachedService.List (catalogueCache.GetProducts st tags order pn psz).res
          dbRes d1 d2 d3).dbCalled = false) ∧
    (∀ (st : Store) (id raw : String) (v : Sock) (dbRes : Sock × Option GoErr)
      (d1 d2 d3 : Nat),
      st (catalogueCache.productKey id) = some raw →
      decodeProduct raw = some v →
      (CachedService.Get (catalogueCache.GetProduct st id).res
          dbRes d1 d2 d3).value = v ∧
      (CachedService.Get (catalogueCache.GetProduct st id).res
          dbRes d1 d2 d3).err = none ∧
      (CachedService.Get (catalogueCache.GetProduct st id).res
          dbRes d1 d2 d3).dbCalled = false) ∧
    (∀ (st : Store) (tags : List String) (raw : String) (v : Int)
      (dbRes : Int × Option GoErr) (d1 d2 d3 : Nat),
      st (catalogueCache.countKey tags) = some raw →
      goAtoi raw = some v →
      (CachedService.Count (catalogueCache.GetCount st tags).res
          dbRes d1 d2 d3).value = v ∧
      (CachedService.Count (catalogueCache.GetCount st tags).res
          dbRes d1 d2 d3).err = none ∧
      (CachedService.Count (catalogueCache.GetCount st tags).res
          dbRes d1 d2 d3).dbCalled = false) ∧
    (∀ (st : Store) (raw : String) (v : List String)
      (dbRes : List String × Option GoErr) (d1 d2 d3 : Nat),
      st catalogueCache.tagsKey = some raw →
      decodeTags raw = some v →
      (CachedService.Tags (catalogueCache.GetTags st).res
          dbRes d1 d2 d3).value = v ∧
      (CachedService.Tags (catalogueCache.GetTags st).res
          dbRes d1 d2 d3).err = none ∧
      (CachedService.Tags (catalogueCache.GetTags st).res
          dbRes d1 d2 d3).dbCalled = false) := by
  refine ⟨?_, ?_, ?_, ?_⟩
  · intro st tags order pn psz raw v dbRes d1 d2 d3 hst hdec
    have hg : catalogueCache.GetProducts st tags order pn psz
        = ⟨v, true, none, st, false⟩ := by
      unfold catalogueCache.GetProducts
      dsimp only
      rw [hst]
      simp [hdec]
    rw [CachedService.List, hg]
    rw [readThrough_hit _ _ _ _ _ _ rfl rfl]
    exact ⟨rfl, rfl, rfl⟩
  · intro st id raw v dbRes d1 d2 d3 hst hdec
    have hg : catalogueCache.GetProduct st id = ⟨v, true, none, st, false⟩ := by
      unfold catalogueCache.GetProduct
      dsimp only
      rw [hst]
      simp [hdec]
    rw [CachedService.Get, hg]
    rw [readThrough_hit _ _ _ _ _ _ rfl rfl]
    exact ⟨rfl, rfl, rfl⟩
  · intro st tags raw v dbRes d1 d2 d3 hst hdec
    have hg : catalogueCache.GetCount st tags = ⟨v, true, none, st, false⟩ := by
      unfold catalogueCache.GetCount
      dsimp only
      rw [hst]
      simp [hdec]
    rw [CachedService.Count, hg]
    rw [readThrough_hit _ _ _ _ _ _ rfl rfl]
    exact ⟨rfl, rfl, rfl⟩
  · intro st raw v dbRes d1 d2 d3 hst hdec
    have hg : catalogueCache.GetTags st = ⟨v, true, none, st, false⟩ := by
      unfold catalogueCache.GetTags
      dsimp only
      rw [hst]
      simp [hdec]
    rw [CachedService.Tags, hg]
    rw [readThrough_hit _ _ _ _ _ _ rfl rfl]
    exact ⟨rfl, rfl, rfl⟩

/-- The store with no entries. -/
def emptyStore : Store := fun _ => none

/-- Witness for C2: a store pre-populated with one encoded product list and
one encoded count serves hits without consulting the failing authoritative
service. -/
theorem claim2_hit_path_no_db_call_witness :
    ((CachedService.List (catalogueCache.GetProducts
        (storeSet emptyStore (catalogueCache.productListKey ["geek"] "" 1 6)
          (encodeProductsS [⟨"a1", "colourful", ["geek"]⟩])) ["geek"] "" 1 6).res
        ([], some ⟨"db down"⟩) 1 2 3).value = [⟨"a1", "colourful", ["geek"]⟩] ∧
      (CachedService.List (catalogueCache.GetProducts
        (storeSet emptyStore (catalogueCache.productListKey ["geek"] "" 1 6)
          (encodeProductsS [⟨"a1", "colourful", ["geek"]⟩])) ["geek"] "" 1 6).res
        ([], some ⟨"db down"⟩) 1 2 3).dbCalled = false) ∧
    ((CachedService.Count (catalogueCache.GetCount
        (storeSet emptyStore (catalogueCache.countKey ["geek"]) (goItoa 42))
          ["geek"]).res (0, some ⟨"db down"⟩) 1 2 3).value = 42 ∧
      (CachedService.Count (catalogueCache.GetCount
        (storeSet emptyStore (catalogueCache.countKey ["geek"]) (goItoa 42))
          ["geek"]).res (0, some ⟨"db down"⟩) 1 2 3).dbCalled = false) := by
  have h1 := claim2_hit_path_no_db_call.1
    (storeSet emptyStore (catalogueCache.productListKey ["geek"] "" 1 6)
      (encodeProductsS [⟨"a1", "colourful", ["geek"]⟩]))
    ["geek"] "" 1 6 (encodeProductsS [⟨"a1", "colourful", ["geek"]⟩])
    [⟨"a1", "colourful", ["geek"]⟩] ([], some ⟨"db down"⟩) 1 2 3
    (by simp [storeSet]) (decodeProducts_encode _)
  have h2 := claim2_hit_path_no_db_call.2.2.1
    (storeSet emptyStore (catalogueCache.countKey ["geek"]) (goItoa 42))
    ["geek"] (goItoa 42) 42 (0, some ⟨"db down"⟩) 1 2 3
    (by simp [storeSet]) (goAtoi_goItoa 42)
  exact ⟨⟨h1.1, h1.2.2⟩, ⟨h2.1, h2.2.2⟩⟩

/-- C3: a cache entry whose payload fails to deserialize — JSON unmarshal
failure for product lists, single products and tag lists, or non-integer
text for the count — is treated as a miss: the read returns the
authoritative value with no error, the authoritative service is called,
and the corrupted key is deleted (best-effort). -/
theorem claim3_corruption_recovery :
    (∀ (st : Store) (tags : List String) (order : String) (pn psz : Int)
      (raw : String) (dbv : List Sock) (d1 d2 d3 : Nat),
      st (catalogueCache.productListKey tags order pn psz) = some raw →
      decodeProducts raw = none →
      (CachedService.List (catalogueCache.GetProducts st tags order pn psz).res
          ((dbv, none) : List Sock × Option GoErr) d1 d2 d3).err = none ∧
      (CachedService.List (catalogueCache.GetProducts st tags order pn psz).res
          ((dbv, none) : List Sock × Option GoErr) d1 d2 d3).value = dbv ∧
      (CachedService.List (catalogueCache.GetProducts st tags order pn psz).res
          ((dbv, none) : List Sock × Option GoErr) d1 d2 d3).dbCalled = true ∧
      (catalogueCache.GetProducts st tags order pn psz).delIssued = true ∧
      (catalogueCache.GetProducts st tags order pn psz).store
        (catalogueCache.productListKey tags order pn psz) = none ∧
      (catalogueCache.GetProducts st tags order pn psz).err = none ∧
      (catalogueCache.GetProducts st tags order pn psz).found = false) ∧
    (∀ (st : Store) (id raw : String) (dbv : Sock) (d1 d2 d3 : Nat),
      st (catalogueCache.productKey id) = some raw →
      decodeProduct raw = none →
      (CachedService.Get (catalogueCache.GetProduct st id).res
          ((dbv, none) : Sock × Option GoErr) d1 d2 d3).err = none ∧
      (CachedService.Get (catalogueCache.GetProduct st id).res
          ((dbv, none) : Sock × Option GoErr) d1 d2 d3).value = dbv ∧
      (CachedService.Get (catalogueCache.GetProduct st id).res
          ((dbv, none) : Sock × Option GoErr) d1 d2 d3).dbCalled = true ∧
      (catalogueCache.GetProduct st id).delIssued = true ∧
      (catalogueCache.GetProduct st id).store
        (catalogueCache.productKey id) = none ∧
      (catalogueCache.GetProduct st id).err = none ∧
      (catalogueCache.GetProduct st id).found = false) ∧
    (∀ (st : Store) (raw : String) (dbv : List String) (d1 d2 d3 : Nat),
      st catalogueCache.tagsKey = some raw →
      decodeTags raw = none →
      (CachedService.Tags (catalogueCache.GetTags st).res
          ((dbv, none) : List String × Option GoErr) d1 d2 d3).err = none ∧
      (CachedService.Tags (catalogueCache.GetTags st).res
          ((dbv, none) : List String × Option GoErr) d1 d2 d3).value = dbv ∧
      (CachedService.Tags (catalogueCache.GetTags st).res
          ((dbv, none) : List String × Option GoErr) d1 d2 d3).dbCalled = true ∧
      (catalogueCache.GetTags st).delIssued = true ∧
      (catalogueCache.GetTags st).store catalogueCache.tagsKey = none ∧
      (catalogueCache.GetTags st).err = none ∧
      (catalogueCache.GetTags st).found = false) ∧
    (∀ (st : Store) (tags : List String) (raw : String) (dbv : Int)
      (d1 d2 d3 : Nat),
      st (catalogueCache.countKey tags) = some raw →
      goAtoi raw = none →
      (CachedService.Count (catalogueCache.GetCount st tags).res
          ((dbv, none) : Int × Option GoErr) d1 d2 d3).err = none ∧
      (CachedService.Count (catalogueCache.GetCount st tags).res
          ((dbv, none) : Int × Option GoErr) d1 d2 d3).value = dbv ∧
      (CachedService.Count (catalogueCache.GetCount st tags).res
          ((dbv, none) : Int × Option GoErr) d1 d2 d3).dbCalled = true ∧
      (catalogueCache.GetCount st tags).delIssued = true ∧
      (catalogueCache.GetCount st tags).store
        (catalogueCache.countKey tags) = none ∧
      (catalogueCache.GetCount st tags).err = none ∧
      (catalogueCache.GetCount st tags).found = false) := by
  refine ⟨?_, ?_, ?_, ?_⟩
  · intro st tags order pn psz raw dbv d1 d2 d3 hst hdec
    have hg : catalogueCache.GetProducts st tags order pn psz
        = ⟨[], false, none,
            storeDel st (catalogueCache.productListKey tags order pn psz), true⟩ := by
      unfold catalogueCache.GetProducts
      dsimp only
      rw [hst]
      simp [hdec]
    rw [CachedService.List, hg]
    unfold readThrough
    refine ⟨?_, ?_, ?_, ?_, ?_, ?_, ?_⟩ <;> simp [storeDel, CacheGetOutcome.res]
  · intro st id raw dbv d1 d2 d3 hst hdec
    have hg : catalogueCache.GetProduct st id
        = ⟨sockZero, false, none,
            storeDel st (catalogueCache.productKey id), true⟩ := by
      unfold catalogueCache.GetProduct
      dsimp only
      rw [hst]
      simp [hdec]
    rw [CachedService.Get, hg]
    unfold readThrough
    refine ⟨?_, ?_, ?_, ?_, ?_, ?_, ?_⟩ <;> simp [storeDel, CacheGetOutcome.res]
  · intro st raw dbv d1 d2 d3 hst hdec
    have hg : catalogueCache.GetTags st
        = ⟨[], false, none, storeDel st catalogueCache.tagsKey, true⟩ := by
      unfold catalogueCache.GetTags
      dsimp only
      rw [hst]
      simp [hdec]
    rw [CachedService.Tags, hg]
    unfold readThrough
    refine ⟨?_, ?_, ?_, ?_, ?_, ?_, ?_⟩ <;> simp [storeDel, CacheGetOutcome.res]
  · intro st tags raw dbv d1 d2 d3 hst hdec
    have hg : catalogueCache.GetCount st tags
        = ⟨0, false, none, storeDel st (catalogueCache.countKey tags), true⟩ := by
      unfold catalogueCache.GetCount
      dsimp only
      rw [hst]
      simp [hdec]
    rw [CachedService.Count, hg]
    unfold readThrough
    refine ⟨?_, ?_, ?_, ?_, ?_, ?_, ?_⟩ <;> simp [storeDel, CacheGetOutcome.res]

/-- Witness for C3 at concrete inputs: payloads that are not valid JSON or
not an integer, for all four cached kinds. -/
theorem claim3_corruption_recovery_witness :
    ((CachedService.List (catalogueCache.GetProducts
        (storeSet emptyStore (catalogueCache.productListKey [] "" 1 6) "garbage")
        [] "" 1 6).res (([⟨"a1", "colourful", ["geek"]⟩], none) :
          List Sock × Option GoErr) 1 2 3).err = none ∧
      (CachedService.List (catalogueCache.GetProducts
        (storeSet emptyStore (catalogueCache.productListKey [] "" 1 6) "garbage")
        [] "" 1 6).res (([⟨"a1", "colourful", ["geek"]⟩], none) :
          List Sock × Option GoErr) 1 2 3).value = [⟨"a1", "colourful", ["geek"]⟩] ∧
      (catalogueCache.GetProducts
        (storeSet emptyStore (catalogueCache.productListKey [] "" 1 6) "garbage")
        [] "" 1 6).delIssued = true) ∧
    ((CachedService.Get (catalogueCache.GetProduct
        (storeSet emptyStore (catalogueCache.productKey "a1") "garbage")
        "a1").res ((⟨"a1", "colourful", ["geek"]⟩, none) :
          Sock × Option GoErr) 1 2 3).err = none ∧
      (catalogueCache.GetProduct
        (storeSet emptyStore (catalogueCache.productKey "a1") "garbage")
        "a1").delIssued = true) ∧
    ((CachedService.Tags (catalogueCache.GetTags
        (storeSet emptyStore catalogueCache.tagsKey "garbage")).res
        ((["geek"], none) : List String × Option GoErr) 1 2 3).err = none ∧
      (catalogueCache.GetTags
        (storeSet emptyStore catalogueCache.tagsKey "garbage")).delIssued
        = true) ∧
    ((CachedService.Count (catalogueCache.GetCount
        (storeSet emptyStore (catalogueCache.countKey []) "12.5") []).res
        ((7, none) : Int × Option GoErr) 1 2 3).err = none ∧
      (catalogueCache.GetCount
        (storeSet emptyStore (catalogueCache.countKey []) "12.5") []).delIssued
        = true) := by
  have h1 := claim3_corruption_recovery.1
    (storeSet emptyStore (catalogueCache.productListKey [] "" 1 6) "garbage")
    [] "" 1 6 "garbage" [⟨"a1", "colourful", ["geek"]⟩] 1 2 3
    (by simp [storeSet]) (by decide)
  have hp := claim3_corruption_recovery.2.1
    (storeSet emptyStore (catalogueCache.productKey "a1") "garbage")
    "a1" "garbage" ⟨"a1", "colourful", ["geek"]⟩ 1 2 3
    (by simp [storeSet]) (by decide)
  have ht := claim3_corruption_recovery.2.2.1
    (storeSet emptyStore catalogueCache.tagsKey "garbage")
    "garbage" ["geek"] 1 2 3
    (by simp [storeSet]) (by decide)
  have h2 := claim3_corruption_recovery.2.2.2
    (storeSet emptyStore (catalogueCache.countKey []) "12.5") [] "12.5" 7 1 2 3
    (by simp [storeSet]) (by decide)
  exact ⟨⟨h1.1, h1.2.1, h1.2.2.2.1⟩, ⟨hp.1, hp.2.2.2.1⟩, ⟨ht.1, ht.2.2.2.1⟩,
    ⟨h2.1, h2.2.2.2.1⟩⟩

/-- Counterexample to C6 as stated: when the cache Get itself errored and
the authoritative call then errors, the error is propagated and nothing is
cached, but the recorder is invoked with a cache-error sample in addition
to the miss — so "only a Miss metric is recorded" fails on this input. -/
theorem claim6_counterexample :
    (CachedService.Get ⟨sockZero, false, some ⟨"cache down"⟩⟩
        (sockZero, some ⟨"not found"⟩) 1 2 3).err = some ⟨"not found"⟩ ∧
    (CachedService.Get ⟨sockZero, false, some ⟨"cache down"⟩⟩
        (sockZero, some ⟨"not found"⟩) 1 2 3).events =
      [MetricsCall.error "Get" 1, MetricsCall.miss "Get" 3] ∧
    MetricsCall.error "Get" 1 ∈
      (CachedService.Get ⟨sockZero, false, some ⟨"cache down"⟩⟩
        (sockZero, some ⟨"not found"⟩) 1 2 3).events := by
  refine ⟨rfl, rfl, ?_⟩
  rw [show (CachedService.Get ⟨sockZero, false, some ⟨"cache down"⟩⟩
      (sockZero, some ⟨"not found"⟩) 1 2 3).events =
    [MetricsCall.error "Get" 1, MetricsCall.miss "Get" 3] from rfl]
  exact List.mem_cons_self _ _

/-- C6 as amended: on every fallback read whose authoritative call errors,
the coordinator returns that exact error value unmodified, schedules no
cache Set, and records the request as a Miss (never a Hit); when the cache
Get itself errored an additional CacheError sample precedes the Miss. -/
theorem claim6_amended_db_error_propagation :
    (∀ (c : CacheGetRes (List Sock)) (v : List Sock) (e : GoErr) (d1 d2 d3 : Nat),
      ¬ (c.err = none ∧ c.found = true) →
      (CachedService.List c (v, some e) d1 d2 d3).err = some e ∧
      (CachedService.List c (v, some e) d1 d2 d3).value = v ∧
      (CachedService.List c (v, some e) d1 d2 d3).setScheduled = false ∧
      (c.err = none →
        (CachedService.List c (v, some e) d1 d2 d3).events =
          [MetricsCall.miss "List" d3]) ∧
      (c.err ≠ none →
        (CachedService.List c (v, some e) d1 d2 d3).events =
          [MetricsCall.error "List" d1, MetricsCall.miss "List" d3])) ∧
    (∀ (c : CacheGetRes Sock) (v : Sock) (e : GoErr) (d1 d2 d3 : Nat),
      ¬ (c.err = none ∧ c.found = true) →
      (CachedService.Get c (v, some e) d1 d2 d3).err = some e ∧
      (CachedService.Get c (v, some e) d1 d2 d3).value = v ∧
      (CachedService.Get c (v, some e) d1 d2 d3).setScheduled = false ∧
      (c.err = none →
        (CachedService.Get c (v, some e) d1 d2 d3).events =
          [MetricsCall.miss "Get" d3]) ∧
      (c.err ≠ none →
        (CachedService.Get c (v, some e) d1 d2 d3).events =
          [MetricsCall.error "Get" d1, MetricsCall.miss "Get" d3])) ∧
    (∀ (c : CacheGetRes Int) (v : Int) (e : GoErr) (d1 d2 d3 : Nat),
      ¬ (c.err = none ∧ c.found = true) →
      (CachedService.Count c (v, some e) d1 d2 d3).err = some e ∧
      (CachedService.Count c (v, some e) d1 d2 d3).value = v ∧
      (CachedService.Count c (v, some e) d1 d2 d3).setScheduled = false ∧
      (c.err = none →
        (CachedService.Count c (v, some e) d1 d2 d3).events =
          [MetricsCall.miss "Count" d3]) ∧
      (c.err ≠ none →
        (CachedService.Count c (v, some e) d1 d2 d3).events =
          [MetricsCall.error "Count" d1, MetricsCall.miss "Count" d3])) ∧
    (∀ (c : CacheGetRes (List String)) (v : List String) (e : GoErr)
      (d1 d2 d3 : Nat),
      ¬ (c.err = none ∧ c.found = true) →
      (CachedService.Tags c (v, some e) d1 d2 d3).err = some e ∧
      (CachedService.Tags c (v, some e) d1 d2 d3).value = v ∧
      (CachedService.Tags c (v, some e) d1 d2 d3).setScheduled = false ∧
      (c.err = none →
        (CachedService.Tags c (v, some e) d1 d2 d3).events =
          [MetricsCall.miss "Tags" d3]) ∧
      (c.err ≠ none →
        (CachedService.Tags c (v, some e) d1 d2 d3).events =
          [MetricsCall.error "Tags" d1, MetricsCall.miss "Tags" d3])) := by
  exact ⟨fun c v e d1 d2 d3 h => readThrough_dbError "List" c v e d1 d2 d3 h,
    fun c v e d1 d2 d3 h => readThrough_dbError "Get" c v e d1 d2 d3 h,
    fun c v e d1 d2 d3 h => readThrough_dbError "Count" c v e d1 d2 d3 h,
    fun c v e d1 d2 d3 h => readThrough_dbError "Tags" c v e d1 d2 d3 h⟩

/-- Witness for the amended C6 on a plain miss followed by a not-found
error from the authoritative service. -/
theorem claim6_amended_db_error_propagation_witness :
    (CachedService.Get ⟨sockZero, false, none⟩
        (sockZero, some ⟨"not found"⟩) 1 2 3).err = some ⟨"not found"⟩ ∧
    (CachedService.Get ⟨sockZero, false, none⟩
        (sockZero, some ⟨"not found"⟩) 1 2 3).setScheduled = false ∧
    (CachedService.Get ⟨sockZero, false, none⟩
        (sockZero, some ⟨"not found"⟩) 1 2 3).events =
      [MetricsCall.miss "Get" 3] := by
  have h := claim6_amended_db_error_propagation.2.1
    ⟨sockZero, false, none⟩ sockZero ⟨"not found"⟩ 1 2 3 (by simp)
  exact ⟨h.1, h.2.2.1, h.2.2.2.1 rfl⟩

/-! ## Counting helpers for metrics sequences -/

/-- Is the call a hit record. -/
def isHit : MetricsCall → Bool
  | .hit _ _ => true
  | _ => false

/-- Is the call a miss record. -/
def isMiss : MetricsCall → Bool
  | .miss _ _ => true
  | _ => false

/-- Is the call an error record. -/
def isErr : MetricsCall → Bool
  | .error _ _ => true
  | _ => false

/-- The duration sample the call carries. -/
def callDuration : MetricsCall → Nat
  | .hit _ d => d
  | .miss _ d => d
  | .error _ d => d

/-- Number of hit records in a sequence. -/
def hitCount (evs : List MetricsCall) : Nat := (evs.filter isHit).length

/-- Number of miss records in a sequence. -/
def missCount (evs : List MetricsCall) : Nat := (evs.filter isMiss).length

/-- Number of error records in a sequence. -/
def errCount (evs : List MetricsCall) : Nat := (evs.filter isErr).length

/-- Sum of every duration in a sequence. -/
def totalDuration (evs : List MetricsCall) : Nat :=
  (evs.map callDuration).sum

/-- Sum of the hit durations. -/
def hitDuration (evs : List MetricsCall) : Nat :=
  ((evs.filter isHit).map callDuration).sum

/-- Sum of the miss-plus-error durations. -/
def fallbackDuration (evs : List MetricsCall) : Nat :=
  ((evs.filter (fun e => isMiss e || isErr e)).map callDuration).sum

/-- The operation-counter switch leaves every other field unchanged. -/
theorem incOp_fields (op : String) (m : CacheMetrics) :
    (incrementOperationCounter op m).totalRequests = m.totalRequests ∧
    (incrementOperationCounter op m).cacheHits = m.cacheHits ∧
    (incrementOperationCounter op m).cacheMisses = m.cacheMisses ∧
    (incrementOperationCounter op m).cacheErrors = m.cacheErrors ∧
    (incrementOperationCounter op m).totalResponseTime = m.totalResponseTime ∧
    (incrementOperationCounter op m).cacheResponseTime = m.cacheResponseTime ∧
    (incrementOperationCounter op m).dbResponseTime = m.dbResponseTime := by
  unfold incrementOperationCounter
  split_ifs <;> simp

/-- The effect of one recorded call on the shared counters and timers. -/
theorem applyCall_fields (m : CacheMetrics) (e : MetricsCall) :
    (applyCall m e).totalRequests = m.totalRequests + 1 ∧
    (applyCall m e).cacheHits = m.cacheHits + (if isHit e then 1 else 0) ∧
    (applyCall m e).cacheMisses = m.cacheMisses + (if isMiss e then 1 else 0) ∧
    (applyCall m e).cacheErrors = m.cacheErrors + (if isErr e then 1 else 0) ∧
    (applyCall m e).totalResponseTime = m.totalResponseTime + callDuration e ∧
    (applyCall m e).cacheResponseTime
        = m.cacheResponseTime + (if isHit e then callDuration e else 0) ∧
    (applyCall m e).dbResponseTime
        = m.dbResponseTime + (if isHit e then 0 else callDuration e) := by
  cases e with
  | hit op d =>
    have hin := incOp_fields op
      { m with
        totalRequests := m.totalRequests + 1
        cacheHits := m.cacheHits + 1
        totalResponseTime := m.totalResponseTime + d
        cacheResponseTime := m.cacheResponseTime + d }
    refine ⟨?_, ?_, ?_, ?_, ?_, ?_, ?_⟩ <;>
      simp [applyCall, RecordCacheHit, isHit, isMiss, isErr, callDuration,
        hin.1, hin.2.1, hin.2.2.1, hin.2.2.2.1, hin.2.2.2.2.1,
        hin.2.2.2.2.2.1, hin.2.2.2.2.2.2]
  | miss op d =>
    have hin := incOp_fields op
      { m with
        totalRequests := m.totalRequests + 1
        cacheMisses := m.cacheMisses + 1
        totalResponseTime := m.totalResponseTime + d
        dbResponseTime := m.dbResponseTime + d }
    refine ⟨?_, ?_, ?_, ?_, ?_, ?_, ?_⟩ <;>
      simp [applyCall, RecordCacheMiss, isHit, isMiss, isErr, callDuration,
        hin.1, hin.2.1, hin.2.2.1, hin.2.2.2.1, hin.2.2.2.2.1,
        hin.2.2.2.2.2.1, hin.2.2.2.2.2.2]
  | error op d =>
    have hin := incOp_fields op
      { m with
        totalRequests := m.totalRequests + 1
        cacheErrors := m.cacheErrors + 1
        totalResponseTime := m.totalResponseTime + d
        dbResponseTime := m.dbResponseTime + d }
    refine ⟨?_, ?_, ?_, ?_, ?_, ?_, ?_⟩ <;>
      simp [applyCall, RecordCacheError, isHit, isMiss, isErr, callDuration,
        hin.1, hin.2.1, hin.2.2.1, hin.2.2.2.1, hin.2.2.2.2.1,
        hin.2.2.2.2.2.1, hin.2.2.2.2.2.2]

theorem hitCount_cons (e : MetricsCall) (evs : List MetricsCall) :
    hitCount (e :: evs) = (if isHit e then 1 else 0) + hitCount evs := by
  cases hie : isHit e <;> simp [hitCount, List.filter_cons, hie] <;> omega

theorem missCount_cons (e : MetricsCall) (evs : List MetricsCall) :
    missCount (e :: evs) = (if isMiss e then 1 else 0) + missCount evs := by
  cases hie : isMiss e <;> simp [missCount, List.filter_cons, hie] <;> omega

theorem errCount_cons (e : MetricsCall) (evs : List MetricsCall) :
    errCount (e :: evs) = (if isErr e then 1 else 0) + errCount evs := by
  cases hie : isErr e <;> simp [errCount, List.filter_cons, hie] <;> omega

theorem totalDuration_cons (e : MetricsCall) (evs : List MetricsCall) :
    totalDuration (e :: evs) = callDuration e + totalDuration evs := by
  simp [totalDuration]

theorem hitDuration_cons (e : MetricsCall) (evs : List MetricsCall) :
    hitDuration (e :: evs)
      = (if isHit e then callDuration e else 0) + hitDuration evs := by
  cases hie : isHit e <;> simp [hitDuration, List.filter_cons, hie]

theorem fallbackDuration_cons (e : MetricsCall) (evs : List MetricsCall) :
    fallbackDuration (e :: evs)
      = (if isHit e then 0 else callDuration e) + fallbackDuration evs := by
  cases e <;> simp [fallbackDuration, List.filter_cons, isHit, isMiss, isErr]

/-- Recording calls accumulates every counter and timer additively. -/
theorem applyCalls_fields (evs : List MetricsCall) :
    ∀ (m : CacheMetrics),
      (applyCalls m evs).totalRequests
          = m.totalRequests + hitCount evs + missCount evs + errCount evs ∧
      (applyCalls m evs).cacheHits = m.cacheHits + hitCount evs ∧
      (applyCalls m evs).cacheMisses = m.cacheMisses + missCount evs ∧
      (applyCalls m evs).cacheErrors = m.cacheErrors + errCount evs ∧
      (applyCalls m evs).totalResponseTime
          = m.totalResponseTime + totalDuration evs ∧
      (applyCalls m evs).cacheResponseTime
          = m.cacheResponseTime + hitDuration evs ∧
      (applyCalls m evs).dbResponseTime
          = m.dbResponseTime + fallbackDuration evs := by
  induction evs with
  | nil =>
    intro m
    simp [applyCalls, hitCount, missCount, errCount, totalDuration, hitDuration,
      fallbackDuration]
  | cons e evs ih =>
    intro m
    have hstep : applyCalls m (e :: evs) = applyCalls (applyCall m e) evs := rfl
    obtain ⟨a1, a2, a3, a4, a5, a6, a7⟩ := applyCall_fields m e
    obtain ⟨i1, i2, i3, i4, i5, i6, i7⟩ := ih (applyCall m e)
    refine ⟨?_, ?_, ?_, ?_, ?_, ?_, ?_⟩ <;>
      rw [hstep] <;>
      simp only [i1, i2, i3, i4, i5, i6, i7, a1, a2, a3, a4, a5, a6, a7,
        hitCount_cons, missCount_cons, errCount_cons, totalDuration_cons,
        hitDuration_cons, fallbackDuration_cons] <;>
      cases e <;> (try simp [isHit, isMiss, isErr]) <;> omega

/-- C7: after any sequence of recorded hits, misses and errors from a fresh
recorder, totalRequests equals N+M+K (and always equals hits+misses+errors),
and the snapshot's hit ratio and the three average response times are the
exact quotients from the claim, each zero when its denominator is zero. -/
theorem claim7_metrics_snapshot :
    ∀ (evs : List MetricsCall),
      (applyCalls NewCacheMetrics evs).totalRequests
          = hitCount evs + missCount evs + errCount evs ∧
      (applyCalls NewCacheMetrics evs).totalRequests
          = (applyCalls NewCacheMetrics evs).cacheHits
            + (applyCalls NewCacheMetrics evs).cacheMisses
            + (applyCalls NewCacheMetrics evs).cacheErrors ∧
      (GetMetrics (applyCalls NewCacheMetrics evs)).HitRatio
          = (if hitCount evs + missCount evs + errCount evs > 0 then
              (hitCount evs : ℚ)
                / ((hitCount evs + missCount evs + errCount evs : Nat) : ℚ) * 100
            else 0) ∧
      (GetMetrics (applyCalls NewCacheMetrics evs)).AvgResponseTime
          = (if hitCount evs + missCount evs + errCount evs > 0 then
              totalDuration evs / (hitCount evs + missCount evs + errCount evs)
            else 0) ∧
      (GetMetrics (applyCalls NewCacheMetrics evs)).AvgCacheResponseTime
          = (if hitCount evs > 0 then hitDuration evs / hitCount evs else 0) ∧
      (GetMetrics (applyCalls NewCacheMetrics evs)).AvgDbResponseTime
          = (if missCount evs + errCount evs > 0 then
              fallbackDuration evs / (missCount evs + errCount evs)
            else 0) := by
  intro evs
  obtain ⟨f1, f2, f3, f4, f5, f6, f7⟩ := applyCalls_fields evs NewCacheMetrics
  rw [show NewCacheMetrics.totalRequests = 0 from rfl] at f1
  rw [show NewCacheMetrics.cacheHits = 0 from rfl] at f2
  rw [show NewCacheMetrics.cacheMisses = 0 from rfl] at f3
  rw [show NewCacheMetrics.cacheErrors = 0 from rfl] at f4
  rw [show NewCacheMetrics.totalResponseTime = 0 from rfl] at f5
  rw [show NewCacheMetrics.cacheResponseTime = 0 from rfl] at f6
  rw [show NewCacheMetrics.dbResponseTime = 0 from rfl] at f7
  simp only [Nat.zero_add] at f1 f2 f3 f4 f5 f6 f7
  refine ⟨by omega, by omega, ?_, ?_, ?_, ?_⟩
  · simp only [GetMetrics, f1, f2]
  · simp only [GetMetrics, f1, f5]
  · simp only [GetMetrics, f2, f6]
  · simp only [GetMetrics, f3, f4, f7]

/-- C10: one coordinator read of any of the four operations whose cache Get
returns a non-nil error and whose fallback succeeds invokes the recorder
twice — a cache error then a cache miss — so totalRequests grows by 2,
cacheErrors and cacheMisses by 1 each, and that operation's per-operation
counter by 2. -/
theorem claim10_cache_error_double_count :
    ∀ (m : CacheMetrics) (cv dbv : List Sock) (cs dbs : Sock) (ci dbi : Int)
      (ct dbt : List String) (f : Bool) (e : GoErr) (d1 d2 d3 : Nat),
      ((CachedService.List ⟨cv, f, some e⟩ (dbv, none) d1 d2 d3).events
          = [MetricsCall.error "List" d1, MetricsCall.miss "List" d3] ∧
      (applyCalls m (CachedService.List ⟨cv, f, some e⟩
          (dbv, none) d1 d2 d3).events).totalRequests = m.totalRequests + 2 ∧
      (applyCalls m (CachedService.List ⟨cv, f, some e⟩
          (dbv, none) d1 d2 d3).events).cacheErrors = m.cacheErrors + 1 ∧
      (applyCalls m (CachedService.List ⟨cv, f, some e⟩
          (dbv, none) d1 d2 d3).events).cacheMisses = m.cacheMisses + 1 ∧
      (applyCalls m (CachedService.List ⟨cv, f, some e⟩
          (dbv, none) d1 d2 d3).events).listRequests = m.listRequests + 2) ∧
      ((CachedService.Get ⟨cs, f, some e⟩ (dbs, none) d1 d2 d3).events
          = [MetricsCall.error "Get" d1, MetricsCall.miss "Get" d3] ∧
      (applyCalls m (CachedService.Get ⟨cs, f, some e⟩
          (dbs, none) d1 d2 d3).events).totalRequests = m.totalRequests + 2 ∧
      (applyCalls m (CachedService.Get ⟨cs, f, some e⟩
          (dbs, none) d1 d2 d3).events).cacheErrors = m.cacheErrors + 1 ∧
      (applyCalls m (CachedService.Get ⟨cs, f, some e⟩
          (dbs, none) d1 d2 d3).events).cacheMisses = m.cacheMisses + 1 ∧
      (applyCalls m (CachedService.Get ⟨cs, f, some e⟩
          (dbs, none) d1 d2 d3).events).getRequests = m.getRequests + 2) ∧
      ((CachedService.Count ⟨ci, f, some e⟩ (dbi, none) d1 d2 d3).events
          = [MetricsCall.error "Count" d1, MetricsCall.miss "Count" d3] ∧
      (applyCalls m (CachedService.Count ⟨ci, f, some e⟩
          (dbi, none) d1 d2 d3).events).totalRequests = m.totalRequests + 2 ∧
      (applyCalls m (CachedService.Count ⟨ci, f, some e⟩
          (dbi, none) d1 d2 d3).events).cacheErrors = m.cacheErrors + 1 ∧
      (applyCalls m (CachedService.Count ⟨ci, f, some e⟩
          (dbi, none) d1 d2 d3).events).cacheMisses = m.cacheMisses + 1 ∧
      (applyCalls m (CachedService.Count ⟨ci, f, some e⟩
          (dbi, none) d1 d2 d3).events).countRequests = m.countRequests + 2) ∧
      ((CachedService.Tags ⟨ct, f, some e⟩ (dbt, none) d1 d2 d3).events
          = [MetricsCall.error "Tags" d1, MetricsCall.miss "Tags" d3] ∧
      (applyCalls m (CachedService.Tags ⟨ct, f, some e⟩
          (dbt, none) d1 d2 d3).events).totalRequests = m.totalRequests + 2 ∧
      (applyCalls m (CachedService.Tags ⟨ct, f, some e⟩
          (dbt, none) d1 d2 d3).events).cacheErrors = m.cacheErrors + 1 ∧
      (applyCalls m (CachedService.Tags ⟨ct, f, some e⟩
          (dbt, none) d1 d2 d3).events).cacheMisses = m.cacheMisses + 1 ∧
      (applyCalls m (CachedService.Tags ⟨ct, f, some e⟩
          (dbt, none) d1 d2 d3).events).tagsRequests = m.tagsRequests + 2) := by
  intro m cv dbv cs dbs ci dbi ct dbt f e d1 d2 d3
  have hevL : (CachedService.List ⟨cv, f, some e⟩ (dbv, none) d1 d2 d3).events
      = [MetricsCall.error "List" d1, MetricsCall.miss "List" d3] := by
    rw [CachedService.List]
    unfold readThrough
    rw [if_pos (by simp)]
  have hevG : (CachedService.Get ⟨cs, f, some e⟩ (dbs, none) d1 d2 d3).events
      = [MetricsCall.error "Get" d1, MetricsCall.miss "Get" d3] := by
    rw [CachedService.Get]
    unfold readThrough
    rw [if_pos (by simp)]
  have hevC : (CachedService.Count ⟨ci, f, some e⟩ (dbi, none) d1 d2 d3).events
      = [MetricsCall.error "Count" d1, MetricsCall.miss "Count" d3] := by
    rw [CachedService.Count]
    unfold readThrough
    rw [if_pos (by simp)]
  have hevT : (CachedService.Tags ⟨ct, f, some e⟩ (dbt, none) d1 d2 d3).events
      = [MetricsCall.error "Tags" d1, MetricsCall.miss "Tags" d3] := by
    rw [CachedService.Tags]
    unfold readThrough
    rw [if_pos (by simp)]
  refine ⟨⟨hevL, ?_, ?_, ?_, ?_⟩, ⟨hevG, ?_, ?_, ?_, ?_⟩,
    ⟨hevC, ?_, ?_, ?_, ?_⟩, ⟨hevT, ?_, ?_, ?_, ?_⟩⟩ <;>
    first
      | (rw [hevL]
         simp [applyCalls, applyCall, RecordCacheError, RecordCacheMiss,
           incrementOperationCounter])
      | (rw [hevG]
         simp [applyCalls, applyCall, RecordCacheError, RecordCacheMiss,
           incrementOperationCounter])
      | (rw [hevC]
         simp [applyCalls, applyCall, RecordCacheError, RecordCacheMiss,
           incrementOperationCounter])
      | (rw [hevT]
         simp [applyCalls, applyCall, RecordCacheError, RecordCacheMiss,
           incrementOperationCounter])

/-- C8: for every value of each cached kind, the Set-side encoding followed
by the Get-side decoding returns the original value; consequently storing a
value and reading it back through the cache yields found with an equal
value and no error, for all four kinds. -/
theorem claim8_serialization_roundtrip :
    (∀ ps : List Sock, decodeProducts (encodeProductsS ps) = some ps) ∧
    (∀ p : Sock, decodeProduct (encodeProductS p) = some p) ∧
    (∀ n : Int, goAtoi (goItoa n) = some n) ∧
    (∀ ts : List String, decodeTags (encodeTagsS ts) = some ts) ∧
    (∀ (st : Store) (tags : List String) (order : String) (pn psz : Int)
      (products : List Sock),
      (catalogueCache.GetProducts
          (catalogueCache.SetProducts st tags order pn psz products)
          tags order pn psz).value = products ∧
      (catalogueCache.GetProducts
          (catalogueCache.SetProducts st tags order pn psz products)
          tags order pn psz).found = true ∧
      (catalogueCache.GetProducts
          (catalogueCache.SetProducts st tags order pn psz products)
          tags order pn psz).err = none) ∧
    (∀ (st : Store) (id : String) (p : Sock),
      (catalogueCache.GetProduct (catalogueCache.SetProduct st id p) id).value
          = p ∧
      (catalogueCache.GetProduct (catalogueCache.SetProduct st id p) id).found
          = true ∧
      (catalogueCache.GetProduct (catalogueCache.SetProduct st id p) id).err
          = none) ∧
    (∀ (st : Store) (tags : List String) (n : Int),
      (catalogueCache.GetCount (catalogueCache.SetCount st tags n) tags).value
          = n ∧
      (catalogueCache.GetCount (catalogueCache.SetCount st tags n) tags).found
          = true ∧
      (catalogueCache.GetCount (catalogueCache.SetCount st tags n) tags).err
          = none) ∧
    (∀ (st : Store) (ts : List String),
      (catalogueCache.GetTags (catalogueCache.SetTags st ts)).value = ts ∧
      (catalogueCache.GetTags (catalogueCache.SetTags st ts)).found = true ∧
      (catalogueCache.GetTags (catalogueCache.SetTags st ts)).err = none) := by
  refine ⟨decodeProducts_encode, decodeProduct_encode, goAtoi_goItoa,
    decodeTags_encode, ?_, ?_, ?_, ?_⟩
  · intro st tags order pn psz products
    have hg : catalogueCache.GetProducts
        (catalogueCache.SetProducts st tags order pn psz products)
        tags order pn psz
        = ⟨products, true, none,
            catalogueCache.SetProducts st tags order pn psz products, false⟩ := by
      unfold catalogueCache.GetProducts catalogueCache.SetProducts
      dsimp only
      rw [show storeSet st (catalogueCache.productListKey tags order pn psz)
          (encodeProductsS products)
          (catalogueCache.productListKey tags order pn psz)
          = some (encodeProductsS products) from by simp [storeSet]]
      simp [decodeProducts_encode]
    rw [hg]
    exact ⟨rfl, rfl, rfl⟩
  · intro st id p
    have hg : catalogueCache.GetProduct (catalogueCache.SetProduct st id p) id
        = ⟨p, true, none, catalogueCache.SetProduct st id p, false⟩ := by
      unfold catalogueCache.GetProduct catalogueCache.SetProduct
      dsimp only
      rw [show storeSet st (catalogueCache.productKey id) (encodeProductS p)
          (catalogueCache.productKey id) = some (encodeProductS p) from by
        simp [storeSet]]
      simp [decodeProduct_encode]
    rw [hg]
    exact ⟨rfl, rfl, rfl⟩
  · intro st tags n
    have hg : catalogueCache.GetCount (catalogueCache.SetCount st tags n) tags
        = ⟨n, true, none, catalogueCache.SetCount st tags n, false⟩ := by
      unfold catalogueCache.GetCount catalogueCache.SetCount
      dsimp only
      rw [show storeSet st (catalogueCache.countKey tags) (goItoa n)
          (catalogueCache.countKey tags) = some (goItoa n) from by
        simp [storeSet]]
      simp [goAtoi_goItoa]
    rw [hg]
    exact ⟨rfl, rfl, rfl⟩
  · intro st ts
    have hg : catalogueCache.GetTags (catalogueCache.SetTags st ts)
        = ⟨ts, true, none, catalogueCache.SetTags st ts, false⟩ := by
      unfold catalogueCache.GetTags catalogueCache.SetTags
      dsimp only
      rw [show storeSet st catalogueCache.tagsKey (encodeTagsS ts)
          catalogueCache.tagsKey = some (encodeTagsS ts) from by simp [storeSet]]
      simp [decodeTags_encode]
    rw [hg]
    exact ⟨rfl, rfl, rfl⟩

/-- A warming environment in which the authoritative service fails exactly
for the first listing of the warming table and succeeds elsewhere. -/
def warmEnvFail : WarmEnv :=
  { svcList := fun l =>
      if l = ⟨[], "", 1, 6⟩ then ([], some ⟨"db down"⟩) else ([], none)
    setProductsErr := fun _ => none
    svcCount := fun _ => (3, none)
    setCountErr := fun _ => none
    svcTags := (["geek"], none)
    setTagsErr := none
    svcGet := fun _ => (sockZero, none)
    setProductErr := fun _ => none }

/-- Counterexample to C9 as stated: the first listing of the warming table
fails, yet the phase still fetches and writes the remaining listings — so
"that phase's remaining items are skipped" is false on this input. -/
theorem claim9_counterexample :
    (warmEnvFail.svcList ⟨[], "", 1, 6⟩).2 ≠ none ∧
    warmListings.head? = some ⟨[], "", 1, 6⟩ ∧
    WarmWrite.productsEntry ⟨[], "", 1, 12⟩ [] ∈
      warmProductListings warmEnvFail warmListings ∧
    WarmWrite.countEntry [] 3 ∈
      warmProductListings warmEnvFail warmListings := by
  refine ⟨by decide, by decide, ?_, ?_⟩ <;> decide

/-- C9 as amended: an item failure in a warming phase is logged and skips
only that item's remaining steps; the phase continues with its remaining
items (in the individual-products phase, a failure of the initial listing
fetch skips that whole phase), and each phase depends only on its own
inputs. -/
theorem claim9_amended_per_item_skip :
    (∀ (env : WarmEnv) (l : WarmListing) (rest : List WarmListing),
      warmProductListings env (l :: rest)
        = warmOneListing env l ++ warmProductListings env rest) ∧
    (∀ (env : WarmEnv) (l : WarmListing),
      (env.svcList l).2 ≠ none → warmOneListing env l = []) ∧
    (∀ (env : WarmEnv) (l : WarmListing),
      (env.setProductsErr l) ≠ none → warmOneListing env l = []) ∧
    (∀ (env : WarmEnv),
      (env.svcList ⟨[], "", 1, 10⟩).2 ≠ none → warmIndividualProducts env = []) ∧
    (∀ (env : WarmEnv) (products : List Sock),
      env.svcList ⟨[], "", 1, 10⟩ = (products, none) →
      warmIndividualProducts env = (products.map (warmOneProduct env)).flatten) ∧
    (∀ (env : WarmEnv) (p : Sock),
      (env.svcGet p.ID).2 ≠ none → warmOneProduct env p = []) ∧
    (∀ (env : WarmEnv),
      env.svcTags.2 ≠ none ∨ env.setTagsErr ≠ none → warmTags env = []) := by
  refine ⟨?_, ?_, ?_, ?_, ?_, ?_, ?_⟩
  · intro env l rest
    simp [warmProductListings]
  · intro env l h
    rw [warmOneListing.eq_def]
    split
    · rfl
    · rename_i products heq
      rw [heq] at h
      simp at h
  · intro env l h
    rw [warmOneListing.eq_def]
    split
    · rfl
    · split
      · rfl
      · rename_i heq2
        rw [heq2] at h
        simp at h
  · intro env h
    rw [warmIndividualProducts.eq_def]
    split
    · rfl
    · rename_i products heq
      rw [heq] at h
      simp at h
  · intro env products h
    rw [warmIndividualProducts.eq_def]
    split
    · rename_i v e heq
      rw [h] at heq
      simp at heq
    · rename_i products2 heq
      rw [h] at heq
      simp only [Prod.mk.injEq] at heq
      rw [heq.1]
  · intro env p h
    rw [warmOneProduct.eq_def]
    split
    · rfl
    · rename_i fullProduct heq
      rw [heq] at h
      simp at h
  · intro env h
    rw [warmTags.eq_def]
    split
    · rfl
    · rename_i tags heq
      split
      · rfl
      · rename_i heq2
        rcases h with h | h
        · rw [heq] at h
          simp at h
        · exact absurd heq2 h

/-- Witness for the amended C9: with the first warming listing failing, that
item contributes no writes, while the iteration law still splits the run
over the remaining items. -/
theorem claim9_amended_per_item_skip_witness :
    warmOneListing warmEnvFail ⟨[], "", 1, 6⟩ = [] ∧
    warmProductListings warmEnvFail [⟨[], "", 1, 6⟩, ⟨[], "", 1, 12⟩]
      = warmOneListing warmEnvFail ⟨[], "", 1, 6⟩ ++
        warmProductListings warmEnvFail [⟨[], "", 1, 12⟩] := by
  exact ⟨claim9_amended_per_item_skip.2.1 warmEnvFail ⟨[], "", 1, 6⟩ (by decide),
    claim9_amended_per_item_skip.1 warmEnvFail ⟨[], "", 1, 6⟩ [⟨[], "", 1, 12⟩]⟩

/-- C5: the List key is exactly the documented concatenation, with "all"
substituted when the comma-joined tags string is empty, and derivation is a
deterministic pure function of the descriptor's fields. -/
theorem claim5_list_key_format :
    ∀ (tags : List String) (order : String) (pn psz : Int),
      catalogueCache.productListKey tags order pn psz
        = "catalogue:products:"
          ++ (if goJoin "," tags = "" then "all" else goJoin "," tags)
          ++ ":order:" ++ order ++ ":page:" ++ goItoa pn ++ ":size:"
          ++ goItoa psz ∧
      (∀ (tags2 : List String) (order2 : String) (pn2 psz2 : Int),
        tags = tags2 → order = order2 → pn = pn2 → psz = psz2 →
        catalogueCache.productListKey tags order pn psz
          = catalogueCache.productListKey tags2 order2 pn2 psz2) := by
  intro tags order pn psz
  constructor
  · unfold catalogueCache.productListKey
    simp [String.append_assoc]
  · intro tags2 order2 pn2 psz2 h1 h2 h3 h4
    rw [h1, h2, h3, h4]

/-- Witness for C5 at a concrete descriptor. -/
theorem claim5_list_key_format_witness :
    catalogueCache.productListKey ["geek"] "price" 1 6
      = "catalogue:products:geek:order:price:page:1:size:6" ∧
    catalogueCache.productListKey ["geek"] "price" 1 6
      = catalogueCache.productListKey ["geek"] "price" 1 6 := by
  have h := claim5_list_key_format ["geek"] "price" 1 6
  refine ⟨?_, h.2 ["geek"] "price" 1 6 rfl rfl rfl rfl⟩
  rw [h.1]
  decide

/-! ## Key-collision analysis for C4 -/

/-- Splitting at a separator character that occurs in neither prefix is
unambiguous. -/
theorem sep_split (sep : Char) :
    ∀ (a b u v : List Char),
      (∀ c ∈ a, c ≠ sep) → (∀ c ∈ b, c ≠ sep) →
      a ++ sep :: u = b ++ sep :: v → a = b ∧ u = v := by
  intro a
  induction a with
  | nil =>
    intro b u v ha hb h
    cases b with
    | nil => simpa using h
    | cons y b2 =>
      simp only [List.nil_append, List.cons_append, List.cons.injEq] at h
      exact absurd h.1.symm (hb y (List.mem_cons_self _ _))
  | cons x a2 ih =>
    intro b u v ha hb h
    cases b with
    | nil =>
      simp only [List.cons_append, List.nil_append, List.cons.injEq] at h
      exact absurd h.1 (ha x (List.mem_cons_self _ _))
    | cons y b2 =>
      simp only [List.cons_append, List.cons.injEq] at h
      obtain ⟨h1, h2⟩ := h
      obtain ⟨h3, h4⟩ := ih b2 u v (fun c hc => ha c (List.mem_cons_of_mem _ hc))
        (fun c hc => hb c (List.mem_cons_of_mem _ hc)) h2
      exact ⟨by rw [h1, h3], h4⟩

theorem goJoin_foldl_shift :
    ∀ (rest : List String) (x y : String),
      rest.foldl (fun acc t => acc ++ "," ++ t) (x ++ y)
        = x ++ rest.foldl (fun acc t => acc ++ "," ++ t) y := by
  intro rest
  induction rest with
  | nil => intro x y; rfl
  | cons r rest ih =>
    intro x y
    show rest.foldl (fun acc t => acc ++ "," ++ t) (x ++ y ++ "," ++ r)
      = x ++ rest.foldl (fun acc t => acc ++ "," ++ t) (y ++ "," ++ r)
    rw [String.append_assoc x y ",", String.append_assoc x (y ++ ",") r]
    exact ih x (y ++ "," ++ r)

theorem goJoin_cons_cons (a b : String) (rest : List String) :
    goJoin "," (a :: b :: rest) = a ++ "," ++ goJoin "," (b :: rest) := by
  show rest.foldl (fun acc t => acc ++ "," ++ t) (a ++ "," ++ b)
    = a ++ "," ++ rest.foldl (fun acc t => acc ++ "," ++ t) b
  exact goJoin_foldl_shift rest (a ++ ",") b

/-- Characters of a comma-join come from the separator or the elements. -/
theorem goJoin_mem :
    ∀ (l : List String) (c : Char), c ∈ (goJoin "," l).data →
      c = ',' ∨ ∃ s ∈ l, c ∈ s.data := by
  intro l
  cases l with
  | nil => intro c hc; simp [goJoin] at hc
  | cons a rest =>
    induction rest generalizing a with
    | nil => intro c hc; exact Or.inr ⟨a, by simp, hc⟩
    | cons b rest ih =>
      intro c hc
      rw [goJoin_cons_cons] at hc
      simp only [String.data_append, List.mem_append] at hc
      rcases hc with (hc | hc) | hc
      · exact Or.inr ⟨a, by simp, hc⟩
      · left
        simpa using hc
      · rcases ih b c hc with h | ⟨s, hs, hcs⟩
        · exact Or.inl h
        · exact Or.inr ⟨s, List.mem_cons_of_mem _ hs, hcs⟩

/-- The tag-list predicate the amended C4 needs: every tag is non-empty and
free of the two delimiter characters. -/
def goodTags (tags : List String) : Prop :=
  ∀ s ∈ tags, s ≠ "" ∧ ∀ c ∈ s.data, c ≠ ',' ∧ c ≠ ':'

/-- A comma-join of well-formed tags is empty only for the empty list. -/
theorem goJoin_eq_empty (t : List String) (hg : goodTags t)
    (h : goJoin "," t = "") : t = [] := by
  cases t with
  | nil => rfl
  | cons a rest =>
    cases rest with
    | nil => exact absurd h (hg a (by simp)).1
    | cons b rest2 =>
      exfalso
      rw [goJoin_cons_cons] at h
      have hmem : ',' ∈ (a ++ "," ++ goJoin "," (b :: rest2)).data := by
        simp [String.data_append]
      rw [h] at hmem
      simp at hmem

/-- A comma-join of comma-free tags equals "all" only for `["all"]`. -/
theorem goJoin_eq_all (t : List String) (hg : goodTags t)
    (h : goJoin "," t = "all") : t = ["all"] := by
  cases t with
  | nil => exact absurd h (by decide)
  | cons a rest =>
    cases rest with
    | nil =>
      have : a = "all" := h
      rw [this]
    | cons b rest2 =>
      exfalso
      rw [goJoin_cons_cons] at h
      have hmem : ',' ∈ (a ++ "," ++ goJoin "," (b :: rest2)).data := by
        simp [String.data_append]
      rw [h] at hmem
      revert hmem
      decide

/-- Comma-joining is injective on non-empty lists of comma-free strings. -/
theorem goJoin_inj :
    ∀ (a1 : List String) (a : String) (b1 : List String) (b : String),
      (∀ s ∈ a :: a1, ∀ c ∈ s.data, c ≠ ',') →
      (∀ s ∈ b :: b1, ∀ c ∈ s.data, c ≠ ',') →
      goJoin "," (a :: a1) = goJoin "," (b :: b1) → a :: a1 = b :: b1 := by
  intro a1
  induction a1 with
  | nil =>
    intro a b1 b hca hcb h
    cases b1 with
    | nil =>
      have : a = b := h
      rw [this]
    | cons b2 bs =>
      exfalso
      rw [goJoin_cons_cons] at h
      have hmem : ',' ∈ (b ++ "," ++ goJoin "," (b2 :: bs)).data := by
        simp [String.data_append]
      rw [← h] at hmem
      exact hca a (by simp) ',' hmem rfl
  | cons a2 as ih =>
    intro a b1 b hca hcb h
    cases b1 with
    | nil =>
      exfalso
      rw [goJoin_cons_cons] at h
      have hmem : ',' ∈ (a ++ "," ++ goJoin "," (a2 :: as)).data := by
        simp [String.data_append]
      rw [h] at hmem
      exact hcb b (by simp) ',' hmem rfl
    | cons b2 bs =>
      rw [goJoin_cons_cons, goJoin_cons_cons] at h
      have hd := congrArg String.data h
      simp only [String.data_append, List.append_assoc, List.cons_append,
        List.nil_append] at hd
      obtain ⟨h1, h2⟩ := sep_split ',' a.data b.data _ _
        (fun c hc => hca a (by simp) c hc)
        (fun c hc => hcb b (by simp) c hc)
        (by simpa using hd)
      have hab : a = b := String.ext h1
      have hrest : goJoin "," (a2 :: as) = goJoin "," (b2 :: bs) :=
        String.ext h2
      have := ih a2 bs b2
        (fun s hs c hc => hca s (List.mem_cons_of_mem _ hs) c hc)
        (fun s hs c hc => hcb s (List.mem_cons_of_mem _ hs) c hc)
        hrest
      rw [hab, this]

/-- The substituted tags segment of a key contains no colon. -/
theorem tagsStr_no_colon (tags : List String) (hg : goodTags tags) :
    ∀ c ∈ (if goJoin "," tags = "" then "all"
        else goJoin "," tags).data, c ≠ ':' := by
  intro c hc
  by_cases he : goJoin "," tags = ""
  · rw [if_pos he] at hc
    have hcc : c = 'a' ∨ c = 'l' := by
      simpa using hc
    rcases hcc with hcc | hcc <;> rw [hcc] <;> decide
  · rw [if_neg he] at hc
    rcases goJoin_mem tags c hc with h | ⟨s, hs, hcs⟩
    · rw [h]; decide
    · exact ((hg s hs).2 c hcs).2

/-- The substituted tags segment determines the tags list, given the
amended conditions. -/
theorem tagsStr_inj (t1 t2 : List String) (h1 : goodTags t1) (h2 : goodTags t2)
    (hn1 : t1 ≠ ["all"]) (hn2 : t2 ≠ ["all"])
    (heq : (if goJoin "," t1 = "" then "all" else goJoin "," t1)
      = (if goJoin "," t2 = "" then "all" else goJoin "," t2)) : t1 = t2 := by
  by_cases e1 : goJoin "," t1 = ""
  · by_cases e2 : goJoin "," t2 = ""
    · rw [goJoin_eq_empty t1 h1 e1, goJoin_eq_empty t2 h2 e2]
    · rw [if_pos e1, if_neg e2] at heq
      exact absurd (goJoin_eq_all t2 h2 heq.symm) hn2
  · by_cases e2 : goJoin "," t2 = ""
    · rw [if_neg e1, if_pos e2] at heq
      exact absurd (goJoin_eq_all t1 h1 heq) hn1
    · rw [if_neg e1, if_neg e2] at heq
      cases t1 with
      | nil => exact absurd rfl e1
      | cons a as =>
        cases t2 with
        | nil => exact absurd rfl e2
        | cons b bs =>
          exact goJoin_inj as a bs b
            (fun s hs c hc => ((h1 s hs).2 c hc).1)
            (fun s hs c hc => ((h2 s hs).2 c hc).1) heq

/-- A rendered integer contains no colon. -/
theorem goItoa_no_colon (i : Int) : ∀ c ∈ (goItoa i).data, c ≠ ':' := by
  intro c hc hcc
  subst hcc
  unfold goItoa at hc
  split_ifs at hc
  · rcases List.mem_cons.mp hc with h | h
    · revert h; decide
    · have := natDigits_digits _ _ h
      revert this; decide
  · have := natDigits_digits _ _ hc
    revert this; decide

/-- The decimal rendering of a Go int is injective. -/
theorem goItoa_inj (i j : Int) (h : goItoa i = goItoa j) : i = j := by
  have h1 := goAtoi_goItoa i
  rw [h, goAtoi_goItoa j] at h1
  exact (Option.some.injEq _ _).mp h1.symm

/-- Counterexample to C4 as stated: distinct descriptors can collide.  The
empty tag list and the list `["all"]` derive the same List key, and a tag
containing a comma collides with the two tags it spells, for Count keys. -/
theorem claim4_counterexample :
    catalogueCache.productListKey ["all"] "" 1 6
      = catalogueCache.productListKey [] "" 1 6 ∧
    (["all"] : List String) ≠ ([] : List String) ∧
    catalogueCache.countKey ["a,b"] = catalogueCache.countKey ["a", "b"] ∧
    (["a,b"] : List String) ≠ (["a", "b"] : List String) := by
  refine ⟨by decide, by decide, by decide, by decide⟩

/-- C4 as amended: the key derivations are injective once the delimiter
collisions the counterexample exploits are excluded — all tags non-empty
and free of comma and colon, no tags list equal to `["all"]`, and the order
string free of colon. -/
theorem claim4_amended_key_injectivity :
    (∀ (t1 t2 : List String) (o1 o2 : String) (p1 p2 s1 s2 : Int),
      goodTags t1 → goodTags t2 → t1 ≠ ["all"] → t2 ≠ ["all"] →
      (∀ c ∈ o1.data, c ≠ ':') → (∀ c ∈ o2.data, c ≠ ':') →
      catalogueCache.productListKey t1 o1 p1 s1
        = catalogueCache.productListKey t2 o2 p2 s2 →
      t1 = t2 ∧ o1 = o2 ∧ p1 = p2 ∧ s1 = s2) ∧
    (∀ (t1 t2 : List String),
      goodTags t1 → goodTags t2 → t1 ≠ ["all"] → t2 ≠ ["all"] →
      catalogueCache.countKey t1 = catalogueCache.countKey t2 → t1 = t2) := by
  constructor
  · intro t1 t2 o1 o2 p1 p2 s1 s2 hg1 hg2 hn1 hn2 ho1 ho2 heq
    have hd := congrArg String.data heq
    unfold catalogueCache.productListKey at hd
    simp only [String.data_append, List.append_assoc] at hd
    have hd2 := List.append_cancel_left hd
    simp only [List.cons_append, List.nil_append] at hd2
    obtain ⟨hT, hR⟩ := sep_split ':' _ _ _ _
      (tagsStr_no_colon t1 hg1) (tagsStr_no_colon t2 hg2) hd2
    simp only [List.cons.injEq, true_and] at hR
    obtain ⟨hO, hR2⟩ := sep_split ':' _ _ _ _ ho1 ho2 hR
    simp only [List.cons.injEq, true_and] at hR2
    obtain ⟨hP, hR3⟩ := sep_split ':' _ _ _ _
      (goItoa_no_colon p1) (goItoa_no_colon p2) hR2
    simp only [List.cons.injEq, true_and] at hR3
    refine ⟨tagsStr_inj t1 t2 hg1 hg2 hn1 hn2 (String.ext hT), String.ext hO,
      goItoa_inj p1 p2 (String.ext hP), goItoa_inj s1 s2 (String.ext hR3)⟩
  · intro t1 t2 hg1 hg2 hn1 hn2 heq
    have hd := congrArg String.data heq
    unfold catalogueCache.countKey at hd
    simp only [String.data_append, List.append_assoc] at hd
    have hd2 := List.append_cancel_left hd
    exact tagsStr_inj t1 t2 hg1 hg2 hn1 hn2 (String.ext hd2)

/-- Witness for the amended C4 at concrete well-formed descriptors. -/
theorem claim4_amended_key_injectivity_witness :
    (["geek"] : List String) = ["geek"] ∧ ("price" : String) = "price" ∧
    (1 : Int) = 1 ∧ (6 : Int) = 6 ∧ (["brown"] : List String) = ["brown"] := by
  have h1 := claim4_amended_key_injectivity.1 ["geek"] ["geek"] "price" "price"
    1 1 6 6 (by unfold goodTags; decide) (by unfold goodTags; decide)
    (by decide) (by decide) (by decide) (by decide) rfl
  have h2 := claim4_amended_key_injectivity.2 ["brown"] ["brown"]
    (by unfold goodTags; decide) (by unfold goodTags; decide)
    (by decide) (by decide) rfl
  exact ⟨h1.1, h1.2.1, h1.2.2.1, h1.2.2.2, h2⟩
